import Mathlib

/-!
Verification of the hospital bed simulation.

A shallow embedding of `hospital_simulation.py` (a SimPy discrete-event
simulation of hospital bed occupancy) and of the algebraic calculator in
`pages/1_Occupancy_and_LOS.py`, together with proofs of the specified
invariants and functional properties.

Modelling choices:
* Simulated time and random variates are rationals (`ℚ`); Python floats are
  modelled as exact rational arithmetic.
* The numpy global random generator (seeded once by `np.random.seed(42)`) is
  modelled as a stream `u : ℕ → ℚ` of raw draws consumed in call order
  together with a cursor index: `np.random.rand()` consumes one uniform draw,
  `np.random.exponential(scale)` consumes one standard-exponential draw and
  scales it, `np.random.choice` consumes one uniform draw and inverts the
  categorical CDF.
* The SimPy event loop is modelled explicitly: a list of pending events keyed
  by `(time, seq)` where `seq` is a strictly increasing creation counter
  (SimPy's event id), popped in ascending key order.  `env.run(until=T)`
  processes events with time strictly below the horizon `T` and then sets the
  clock to `T`.
* `simpy.PriorityResource` is modelled by its observable behaviour for this
  program: a request is granted whenever the number of slot holders (`users`)
  is below the capacity; otherwise it is queued ordered by
  `(priority, request seq)`, and a release grants the minimal queued request.
* A ghost `trace` of `Action`s (requests, admissions, releases, samples) is
  recorded alongside the state; it does not influence the computation.
-/

namespace BedModel

/-- The two patient types of the model (`patient_types = ['Medical', 'Surgical']`). -/
inductive PType where
  | medical
  | surgical
deriving DecidableEq, Repr

/-- NMCR delay reasons (`'Internal'` / `'External'`). -/
inductive Reason where
  | internal
  | external
deriving DecidableEq, Repr

/-- The sidebar configuration of `hospital_simulation.py`. -/
structure Config where
  /-- `SIMULATION_TIME` (days). -/
  simulationTime : ℕ
  /-- `NUM_BEDS`. -/
  numBeds : ℕ
  /-- `ARRIVAL_RATES` per patient type (per day). -/
  arrivalRates : PType → ℚ
  /-- `MEAN_LOS` per patient type (days). -/
  meanLos : PType → ℚ
  /-- `COMPLEXITY_FACTORS` per patient type. -/
  complexity : PType → ℚ
  /-- `ENABLE_BED_BOARDING`. -/
  enableBedBoarding : Bool
  /-- `EXTRA_BED_RATIO` (extra beds per N beds). -/
  extraBedRatio : ℕ
  /-- `NMCR_PROPORTION` (percent). -/
  nmcrProportion : ℚ
  /-- `NMCR_INTERNAL_PROPORTION` (percent). -/
  nmcrInternalProportion : ℚ
  /-- `NMCR_INTERNAL_DELAY` (days). -/
  nmcrInternalDelay : ℚ
  /-- `NMCR_EXTERNAL_DELAY` (days). -/
  nmcrExternalDelay : ℚ

/-- Domain conditions matching the sidebar widget ranges (`min_value=0.0` for
rates, `min_value=0.1` for mean LOS and NMCR delays, complexity in
`[0.5, 2.0]`), weakened to the nonnegativity actually needed. -/
def Config.WF (cfg : Config) : Prop :=
  (∀ p, 0 ≤ cfg.arrivalRates p) ∧ (∀ p, 0 ≤ cfg.meanLos p) ∧
    (∀ p, 0 ≤ cfg.complexity p) ∧ 0 ≤ cfg.nmcrInternalDelay ∧
    0 ≤ cfg.nmcrExternalDelay

/-- `sum(ARRIVAL_RATES.values())` over the two patient types. -/
def totalRate (cfg : Config) : ℚ :=
  cfg.arrivalRates .medical + cfg.arrivalRates .surgical

/-- Capacity of the bed resource:
`simpy.PriorityResource(env, capacity=num_beds + (num_beds // EXTRA_BED_RATIO))`.
`Nat` division is floor division like Python `//`. -/
def bedCapacity (cfg : Config) : ℕ :=
  cfg.numBeds + cfg.numBeds / cfg.extraBedRatio

/-- `np.random.rand()`: consume one raw draw. -/
def randDraw (u : ℕ → ℚ) (i : ℕ) : ℚ × ℕ := (u i, i + 1)

/-- `np.random.exponential(scale)`: a standard-exponential raw draw scaled by
`scale`. -/
def expDraw (u : ℕ → ℚ) (scale : ℚ) (i : ℕ) : ℚ × ℕ := (scale * u i, i + 1)

/-- `np.random.choice(patient_types, p=[pMedical, pSurgical])`: inverse-CDF on
one uniform draw. -/
def choiceDraw (u : ℕ → ℚ) (pMedical : ℚ) (i : ℕ) : PType × ℕ :=
  (if u i < pMedical then .medical else .surgical, i + 1)

/-- Priority tier computed in `admit_patient` (lines 109–116):
tier 0 (normal bed) when `occupied_beds < num_beds`; otherwise tier 1 (extra
bed) when boarding is enabled and `occupied_beds < num_beds + num_beds //
EXTRA_BED_RATIO`; otherwise tier 2 ("wait until a bed is available"). -/
def admitPriority (cfg : Config) (occupiedBeds : ℤ) : ℕ :=
  if occupiedBeds < (cfg.numBeds : ℤ) then 0
  else if cfg.enableBedBoarding = true ∧ occupiedBeds < (bedCapacity cfg : ℤ) then 1
  else 2

/-- Result of the NMCR draw performed at the top of `admit_patient`. -/
structure NmcrOutcome where
  hasNmcrDelay : Bool
  nmcrReason : Option Reason
  totalLengthOfStay : ℚ
deriving DecidableEq, Repr

/-- The NMCR delay logic of `admit_patient` (lines 95–107): with probability
`NMCR_PROPORTION / 100` the patient has a delay, whose reason is Internal with
probability `NMCR_INTERNAL_PROPORTION / 100` and External otherwise, and whose
magnitude is an exponential draw with mean `NMCR_INTERNAL_DELAY` resp.
`NMCR_EXTERNAL_DELAY`; the delay is added to the base length of stay.
Returns the outcome and the advanced RNG cursor. -/
def nmcrDraw (cfg : Config) (u : ℕ → ℚ) (lengthOfStay : ℚ) (i : ℕ) :
    NmcrOutcome × ℕ :=
  let (r, i1) := randDraw u i
  if r < cfg.nmcrProportion / 100 then
    let (r2, i2) := randDraw u i1
    let reason : Reason :=
      if r2 < cfg.nmcrInternalProportion / 100 then .internal else .external
    let (d, i3) :=
      match reason with
      | .internal => expDraw u cfg.nmcrInternalDelay i2
      | .external => expDraw u cfg.nmcrExternalDelay i2
    (⟨true, some reason, lengthOfStay + d⟩, i3)
  else
    (⟨false, none, lengthOfStay⟩, i1)

/-- Per-patient data carried by a patient process between its suspension
points (closure state of `admit_patient`). -/
structure PatientInfo where
  patientId : ℕ
  ptype : PType
  arrivalTime : ℚ
  lengthOfStay : ℚ
  hasNmcrDelay : Bool
  nmcrReason : Option Reason
  totalLengthOfStay : ℚ
deriving DecidableEq, Repr

/-- The dictionary appended to `hospital.patients` (lines 130–139). -/
structure PatientRecord where
  patientId : ℕ
  ptype : PType
  arrivalTime : ℚ
  lengthOfStay : ℚ
  nmcrDelay : ℚ
  totalLengthOfStay : ℚ
  dischargeTime : ℚ
  nmcrReason : Option Reason
deriving DecidableEq, Repr

/-- Ghost history entries recorded by the model (not part of the Python
state; used only to state properties). -/
inductive Action where
  /-- A bed request was issued with the given priority; `granted` is true
  when the request succeeded synchronously. -/
  | requested (patientId : ℕ) (priority : ℕ) (granted : Bool)
  /-- `occupied_beds` was incremented for this patient at this time. -/
  | admitted (patientId : ℕ) (time : ℚ)
  /-- `occupied_beds` was decremented for this patient at this time. -/
  | released (patientId : ℕ) (time : ℚ)
  /-- `record_occupancy` appended a sample at this time with this count. -/
  | sampled (time : ℚ) (occupiedBeds : ℤ)
deriving DecidableEq, Repr

/-- Pending continuations registered with the SimPy environment. -/
inductive Ev where
  /-- Resumption of `monitor_occupancy`. -/
  | monitor
  /-- Initialization of the `patient_generator` process (top of its loop). -/
  | genInit
  /-- Resumption of `patient_generator` after its inter-arrival timeout. -/
  | genWake
  /-- Initialization of an `admit_patient` process spawned by the generator. -/
  | patientStart (patientId : ℕ) (ptype : PType) (lengthOfStay : ℚ)
  /-- Resumption of a queued `admit_patient` whose request was granted by a
  release. -/
  | bedGranted (info : PatientInfo)
  /-- Resumption of `admit_patient` after `yield env.timeout(total_length_of_stay)`;
  `admitTime` is the time the bed was occupied. -/
  | discharge (info : PatientInfo) (admitTime : ℚ)
deriving DecidableEq, Repr

/-- A scheduled event: due time, creation sequence number (SimPy event id),
and the continuation. -/
structure SimEvent where
  time : ℚ
  seq : ℕ
  ev : Ev
deriving DecidableEq, Repr

/-- The full simulation state: environment clock and event queue, the
`Hospital` object's fields, and the ghost trace. -/
structure SimState where
  /-- `env.now`. -/
  now : ℚ
  /-- Next SimPy event id. -/
  nextSeq : ℕ
  /-- Pending events. -/
  events : List SimEvent
  /-- Cursor into the random stream. -/
  rngIdx : ℕ
  /-- `self.occupied_beds`. -/
  occupiedBeds : ℤ
  /-- `len(self.beds.users)`: number of granted (held) resource slots. -/
  users : ℕ
  /-- `self.beds.put_queue`: queued requests as `(priority, request seq, info)`. -/
  bedQueue : List (ℕ × ℕ × PatientInfo)
  /-- `self.times` zipped with `self.occupancy` (appended together by
  `record_occupancy`). -/
  samples : List (ℚ × ℤ)
  /-- `self.patients`. -/
  patients : List PatientRecord
  /-- The generator's `patient_id` counter. -/
  nextPatientId : ℕ
  /-- Ghost action history. -/
  trace : List Action
deriving Repr

/-- `record_occupancy` (lines 141–143): append the current time and
occupancy. -/
def recordOccupancy (s : SimState) : SimState :=
  { s with
    samples := s.samples ++ [(s.now, s.occupiedBeds)]
    trace := s.trace ++ [.sampled s.now s.occupiedBeds] }

/-- Schedule a continuation at an absolute time with a fresh event id. -/
def schedule (t : ℚ) (e : Ev) (s : SimState) : SimState :=
  { s with
    events := s.events ++ [⟨t, s.nextSeq, e⟩]
    nextSeq := s.nextSeq + 1 }

/-- Pop a minimal element of a list under a boolean "less-or-equal": returns
the minimum and the remaining elements. -/
def popMinBy (le : α → α → Bool) : List α → Option (α × List α)
  | [] => none
  | x :: xs =>
    match popMinBy le xs with
    | none => some (x, xs)
    | some (m, r) => if le x m then some (x, xs) else some (m, x :: r)

/-- Event ordering key: `(time, seq)` ascending, SimPy's processing order for
this program. -/
def eventLE (a b : SimEvent) : Bool :=
  decide (a.time < b.time ∨ (a.time = b.time ∧ a.seq ≤ b.seq))

/-- Queued bed-request ordering: `(priority, request seq)` ascending, SimPy's
`PriorityResource` put-queue order (FIFO within a priority tier). -/
def queueLE (a b : ℕ × ℕ × PatientInfo) : Bool :=
  decide (a.1 < b.1 ∨ (a.1 = b.1 ∧ a.2.1 ≤ b.2.1))

/-- One step of `monitor_occupancy` (lines 86–90): record occupancy, then
`yield self.env.timeout(1)`. -/
def stepMonitor (s : SimState) : SimState :=
  schedule (s.now + 1) .monitor (recordOccupancy s)

/-- The top of the `patient_generator` loop (lines 147–153): while
`env.now < SIMULATION_TIME`, compute the total rate, break if it is zero,
draw the inter-arrival time `Exponential(1 / total_rate)` and suspend until
then. -/
def genLoopTop (cfg : Config) (u : ℕ → ℚ) (s : SimState) : SimState :=
  if s.now < (cfg.simulationTime : ℚ) ∧ totalRate cfg ≠ 0 then
    let (dt, i) := expDraw u (1 / totalRate cfg) s.rngIdx
    schedule (s.now + dt) .genWake { s with rngIdx := i }
  else s

/-- Resumption of `patient_generator` after its timeout (lines 154–160): draw
the patient type from the rate-weighted categorical distribution, draw
`length_of_stay = Exponential(MEAN_LOS[type]) * COMPLEXITY_FACTORS[type]`,
spawn the `admit_patient` process, increment `patient_id`, and loop. -/
def stepGenWake (cfg : Config) (u : ℕ → ℚ) (s : SimState) : SimState :=
  let (pt, i1) := choiceDraw u (cfg.arrivalRates .medical / totalRate cfg) s.rngIdx
  let (losRaw, i2) := expDraw u (cfg.meanLos pt) i1
  let lengthOfStay := losRaw * cfg.complexity pt
  let s1 := schedule s.now (.patientStart s.nextPatientId pt lengthOfStay)
    { s with rngIdx := i2 }
  genLoopTop cfg u { s1 with nextPatientId := s1.nextPatientId + 1 }

/-- Start of an `admit_patient` process (lines 92–126): note the arrival
time, draw the NMCR outcome (before the bed request), compute the priority
tier from the current occupancy, and issue the bed request.  The request is
granted synchronously when the resource has a free slot (`users <
capacity`) — SimPy's `PriorityResource` grants any request, whatever its
priority, while capacity is free; on grant, `occupied_beds` is incremented,
a sample is recorded and the discharge is scheduled after
`total_length_of_stay`.  Otherwise the request joins the priority queue. -/
def stepPatientStart (cfg : Config) (u : ℕ → ℚ)
    (patientId : ℕ) (pt : PType) (lengthOfStay : ℚ) (s : SimState) : SimState :=
  let arrivalTime := s.now
  let (outcome, i) := nmcrDraw cfg u lengthOfStay s.rngIdx
  let s1 := { s with rngIdx := i }
  let priority := admitPriority cfg s1.occupiedBeds
  let info : PatientInfo :=
    ⟨patientId, pt, arrivalTime, lengthOfStay, outcome.hasNmcrDelay,
      outcome.nmcrReason, outcome.totalLengthOfStay⟩
  if s1.users < bedCapacity cfg then
    let s2 := { s1 with
      users := s1.users + 1
      occupiedBeds := s1.occupiedBeds + 1
      trace := s1.trace ++ [.requested patientId priority true,
        .admitted patientId s1.now] }
    schedule (s2.now + info.totalLengthOfStay) (.discharge info s2.now)
      (recordOccupancy s2)
  else
    { s1 with
      bedQueue := s1.bedQueue ++ [(priority, s1.nextSeq, info)]
      nextSeq := s1.nextSeq + 1
      trace := s1.trace ++ [.requested patientId priority false] }

/-- Resumption of a queued `admit_patient` whose request was granted by a
release: `occupied_beds += 1`, record occupancy, suspend for
`total_length_of_stay`. -/
def stepBedGranted (info : PatientInfo) (s : SimState) : SimState :=
  let s1 := { s with
    occupiedBeds := s.occupiedBeds + 1
    trace := s.trace ++ [.admitted info.patientId s.now] }
  schedule (s1.now + info.totalLengthOfStay) (.discharge info s1.now)
    (recordOccupancy s1)

/-- Resumption of `admit_patient` after its stay (lines 123–139):
`occupied_beds -= 1`, record occupancy, leave the `with` block (releasing the
resource slot; the `PriorityResource` then grants the minimal queued request,
whose process resumes via a new event at the current time), and append the
patient dictionary to `self.patients`. -/
def stepDischarge (info : PatientInfo) (s : SimState) : SimState :=
  let s1 := { s with
    occupiedBeds := s.occupiedBeds - 1
    trace := s.trace ++ [.released info.patientId s.now] }
  let s2 := recordOccupancy s1
  let s3 := { s2 with users := s2.users - 1 }
  let s4 :=
    match popMinBy queueLE s3.bedQueue with
    | none => s3
    | some ((_, _, winfo), rest) =>
        schedule s3.now (.bedGranted winfo)
          { s3 with bedQueue := rest, users := s3.users + 1 }
  let record : PatientRecord :=
    ⟨info.patientId, info.ptype, info.arrivalTime, info.lengthOfStay,
      (if info.hasNmcrDelay then info.totalLengthOfStay - info.lengthOfStay else 0),
      info.totalLengthOfStay, s4.now,
      (if info.hasNmcrDelay then info.nmcrReason else none)⟩
  { s4 with patients := s4.patients ++ [record] }

/-- Dispatch one popped event to its continuation. -/
def stepEv (cfg : Config) (u : ℕ → ℚ) (e : SimEvent) (s : SimState) : SimState :=
  match e.ev with
  | .monitor => stepMonitor s
  | .genInit => genLoopTop cfg u s
  | .genWake => stepGenWake cfg u s
  | .patientStart patientId pt lengthOfStay =>
      stepPatientStart cfg u patientId pt lengthOfStay s
  | .bedGranted info => stepBedGranted info s
  | .discharge info _ => stepDischarge info s

/-- The initial environment (lines 162–167): `Hospital.__init__` registers
`monitor_occupancy` (event id 0), then `run_simulation` registers
`patient_generator` (event id 1), both due at time 0. -/
def initState : SimState :=
  { now := 0
    nextSeq := 2
    events := [⟨0, 0, .monitor⟩, ⟨0, 1, .genInit⟩]
    rngIdx := 0
    occupiedBeds := 0
    users := 0
    bedQueue := []
    samples := []
    patients := []
    nextPatientId := 0
    trace := [] }

/-- The SimPy event loop under `env.run(until=SIMULATION_TIME)`: repeatedly
pop the minimal pending event; if it is due strictly before the horizon,
advance the clock to its due time and run its continuation; otherwise stop,
setting the clock to the horizon.  The boolean is true when the loop reached
the horizon (rather than running out of fuel). -/
def runLoop (cfg : Config) (u : ℕ → ℚ) : ℕ → SimState → SimState × Bool
  | 0, s => (s, false)
  | fuel + 1, s =>
    match popMinBy eventLE s.events with
    | none => ({ s with now := (cfg.simulationTime : ℚ) }, true)
    | some (e, rest) =>
      if e.time < (cfg.simulationTime : ℚ) then
        runLoop cfg u fuel (stepEv cfg u e { s with events := rest, now := e.time })
      else ({ s with now := (cfg.simulationTime : ℚ) }, true)

/-- `run_simulation()` (lines 71–172): run the event loop from the initial
state.  `u` is the raw random stream determined by the numpy seed; `fuel`
bounds the number of processed events. -/
def runSimulation (cfg : Config) (u : ℕ → ℚ) (fuel : ℕ) : SimState × Bool :=
  runLoop cfg u fuel initState

section Pages

/-! ## The occupancy and LOS calculator page (`pages/1_Occupancy_and_LOS.py`) -/

/-- `total_arrival_rate` accumulated over the two patient types
(lines 29–32). -/
def totalArrivalRate (rates : PType → ℚ) : ℚ :=
  rates .medical + rates .surgical

/-- The guard at lines 34–36: the page warns and stops (`st.stop()`) when the
total arrival rate is zero; it proceeds otherwise. -/
def occupancyPageProceeds (rates : PType → ℚ) : Bool :=
  !(totalArrivalRate rates == 0)

/-- `ideal_average_los = (target_occupancy_rate / 100 * NUM_BEDS) /
total_arrival_rate` (lines 44–47). -/
def idealAverageLos (targetOccupancyRate numBeds totalArrival : ℚ) : ℚ :=
  targetOccupancyRate / 100 * numBeds / totalArrival

/-- `weighted_average_los` (lines 82–83). -/
def weightedAverageLos (rates currentMeanLos : PType → ℚ) : ℚ :=
  (rates .medical * currentMeanLos .medical +
    rates .surgical * currentMeanLos .surgical) /
    (rates .medical + rates .surgical)

/-- `adjusted_los[p] = current_mean_los[p] * (ideal_average_los /
weighted_average_los)` (lines 94–95), proposed when
`abs(weighted_average_los - ideal_average_los) > 0.01` (line 88). -/
def adjustedLos (rates currentMeanLos : PType → ℚ) (ideal : ℚ) (p : PType) : ℚ :=
  currentMeanLos p * (ideal / weightedAverageLos rates currentMeanLos)

end Pages

section Concrete

/-! ## Concrete configurations and random streams used as witnesses -/

/-- A random stream reading from a finite list (0 beyond its end). -/
def listStream (l : List ℚ) : ℕ → ℚ := fun i => l.getD i 0

/-- Saturation scenario: 2 base beds, extra-bed ratio 2 (1 extra bed, pool
capacity 3), bed boarding disabled, horizon 1 day, only Medical arrivals at
rate 100/day, mean LOS 1 with the raw draws arranged so that three patients
arrive at times 1/100, 2/100, 3/100, each staying 9 days, with no NMCR
delay. -/
def cfgSat : Config :=
  { simulationTime := 1
    numBeds := 2
    arrivalRates := fun p => match p with | .medical => 100 | .surgical => 0
    meanLos := fun _ => 1
    complexity := fun _ => 1
    enableBedBoarding := false
    extraBedRatio := 2
    nmcrProportion := 0
    nmcrInternalProportion := 50
    nmcrInternalDelay := 2
    nmcrExternalDelay := 5 }

/-- Raw draws for `cfgSat`: inter-arrival scale is 1/100, so raw draw 1 gives
1/100 days between arrivals; raw LOS draws of 9 give 9-day stays. -/
def uSat : ℕ → ℚ :=
  listStream [1, 0, 9, 1, 0, 0, 9, 1, 0, 0, 9, 500, 0]

/-- Zero-arrival scenario: both arrival rates are 0. -/
def cfgZero : Config :=
  { cfgSat with arrivalRates := fun _ => 0 }

/-- Permanent-queue scenario: one base bed, extra-bed ratio 1 (pool capacity
2), boarding enabled, horizon 1 day; with the `uSat` draws, patients 0 and 1
occupy both slots for 9 days and patient 2 queues at tier 2 forever. -/
def cfgQueue : Config :=
  { cfgSat with numBeds := 1, extraBedRatio := 1, enableBedBoarding := true }

/-- Single-patient scenario: one base bed, ratio 1, boarding enabled, horizon
2 days; one Medical patient arrives at 1/4, stays 1/2, discharges at 3/4. -/
def cfgOne : Config :=
  { simulationTime := 2
    numBeds := 1
    arrivalRates := fun p => match p with | .medical => 1 | .surgical => 0
    meanLos := fun _ => 1
    complexity := fun _ => 1
    enableBedBoarding := true
    extraBedRatio := 1
    nmcrProportion := 0
    nmcrInternalProportion := 50
    nmcrInternalDelay := 2
    nmcrExternalDelay := 5 }

/-- Raw draws for `cfgOne`. -/
def uOne : ℕ → ℚ :=
  listStream [1/4, 0, 1/2, 8, 0]

end Concrete

section InvariantDefs

/-! ## Invariant definitions -/

/-- Is the event a pending discharge resumption? -/
def isDischargeEv (e : SimEvent) : Bool :=
  match e.ev with
  | .discharge _ _ => true
  | _ => false

/-- Is the event a pending resumption of a queued request granted by a
release? -/
def isGrantedEv (e : SimEvent) : Bool :=
  match e.ev with
  | .bedGranted _ => true
  | _ => false

/-- Is the event a pending `monitor_occupancy` resumption? -/
def isMonitorEv (e : SimEvent) : Bool :=
  match e.ev with
  | .monitor => true
  | _ => false

/-- Bed-count bookkeeping invariant: `occupied_beds` equals the number of
pending discharge events; the held resource slots (`users`) are the pending
discharge events plus the pending granted-request resumptions; held slots
never exceed the pool capacity; and every recorded sample lies in
`[0, capacity]`. -/
def InvB (cfg : Config) (s : SimState) : Prop :=
  s.occupiedBeds = (s.events.countP isDischargeEv : ℤ) ∧
    s.users = s.events.countP isDischargeEv + s.events.countP isGrantedEv ∧
    s.users ≤ bedCapacity cfg ∧
    ∀ tc ∈ s.samples, 0 ≤ tc.2 ∧ tc.2 ≤ (bedCapacity cfg : ℤ)

/-- The time of an occupancy change (admission or release), `none` for the
other actions. -/
def changeTime : Action → Option ℚ
  | .admitted _ t => some t
  | .released _ t => some t
  | _ => none

/-- Is the action a release? -/
def isReleased : Action → Bool
  | .released _ _ => true
  | _ => false

/-- Checks that every admission or release in the history is immediately
followed by an occupancy sample taken at the same time (`record_occupancy`
runs right after each `occupied_beds` update). -/
def okTrace : List Action → Bool
  | [] => true
  | a :: rest =>
    match changeTime a, rest with
    | none, _ => okTrace rest
    | some t, .sampled t2 _ :: _ => (t == t2) && okTrace rest
    | some _, _ => false

/-- Well-formedness of the per-patient data fixed by the NMCR draw at
process start: nonnegative base stay, total stay at least the base stay, and
the reason recorded exactly when a delay was drawn. -/
def InfoWF (info : PatientInfo) : Prop :=
  0 ≤ info.lengthOfStay ∧ info.lengthOfStay ≤ info.totalLengthOfStay ∧
    (info.hasNmcrDelay = false →
      info.nmcrReason = none ∧ info.totalLengthOfStay = info.lengthOfStay) ∧
    (info.hasNmcrDelay = true → ∃ r, info.nmcrReason = some r)

/-- Well-formedness of a finished patient record relative to the action
history: the patient was admitted at some time `tAdmit` no earlier than its
arrival, discharged exactly `total_length_of_stay` later, and the NMCR fields
are consistent. -/
def RecWF (trace : List Action) (rec : PatientRecord) : Prop :=
  ∃ tAdmit : ℚ, Action.admitted rec.patientId tAdmit ∈ trace ∧
    rec.arrivalTime ≤ tAdmit ∧
    rec.dischargeTime = tAdmit + rec.totalLengthOfStay ∧
    (rec.nmcrReason = none →
      rec.nmcrDelay = 0 ∧ rec.totalLengthOfStay = rec.lengthOfStay) ∧
    (∀ r, rec.nmcrReason = some r →
      rec.totalLengthOfStay = rec.lengthOfStay + rec.nmcrDelay ∧ 0 ≤ rec.nmcrDelay)

/-- Per-event timing obligations: a pending event is never in the past;
spawned patients carry a nonnegative base stay; a pending granted-resumption
carries well-formed data for a patient who arrived by its due time; a pending
discharge is due exactly `total_length_of_stay` after the recorded admission
of a patient who arrived by then. -/
def EvWF (now : ℚ) (trace : List Action) (e : SimEvent) : Prop :=
  now ≤ e.time ∧
    match e.ev with
    | .patientStart _ _ los => 0 ≤ los
    | .bedGranted info => InfoWF info ∧ info.arrivalTime ≤ e.time
    | .discharge info tA =>
        InfoWF info ∧ info.arrivalTime ≤ tA ∧
          e.time = tA + info.totalLengthOfStay ∧
          Action.admitted info.patientId tA ∈ trace
    | _ => True

/-- Timing invariant of the event loop (for a nonnegative raw stream and an
in-domain configuration): the clock never exceeds the horizon, every pending
event satisfies its timing obligations, queued requests arrived no later than
now, and finished records satisfy `RecWF`. -/
def InvA (cfg : Config) (s : SimState) : Prop :=
  s.now ≤ (cfg.simulationTime : ℚ) ∧
    (∀ e ∈ s.events, EvWF s.now s.trace e) ∧
    (∀ q ∈ s.bedQueue, InfoWF q.2.2 ∧ q.2.2.arrivalTime ≤ s.now) ∧
    (∀ rec ∈ s.patients, RecWF s.trace rec)

/-- Trace invariant: the recorded history always satisfies `okTrace`. -/
def InvTrace (s : SimState) : Prop := okTrace s.trace = true

/-- Monitor invariant: exactly one `monitor_occupancy` resumption is pending,
it is due at a natural-number time `m`, and every natural time before `m`
already has a recorded occupancy sample. -/
def InvM (s : SimState) : Prop :=
  s.events.countP isMonitorEv = 1 ∧
    ∀ e ∈ s.events, isMonitorEv e = true →
      ∃ m : ℕ, e.time = (m : ℚ) ∧
        ∀ k : ℕ, k < m → ∃ c : ℤ, ((k : ℚ), c) ∈ s.samples

end InvariantDefs

/-! ## Projection lemmas for the state transformers -/

@[simp] theorem schedule_now (t : ℚ) (e : Ev) (s : SimState) :
    (schedule t e s).now = s.now := rfl

@[simp] theorem schedule_events (t : ℚ) (e : Ev) (s : SimState) :
    (schedule t e s).events = s.events ++ [{ time := t, seq := s.nextSeq, ev := e }] := rfl

@[simp] theorem schedule_rngIdx (t : ℚ) (e : Ev) (s : SimState) :
    (schedule t e s).rngIdx = s.rngIdx := rfl

@[simp] theorem schedule_occupiedBeds (t : ℚ) (e : Ev) (s : SimState) :
    (schedule t e s).occupiedBeds = s.occupiedBeds := rfl

@[simp] theorem schedule_users (t : ℚ) (e : Ev) (s : SimState) :
    (schedule t e s).users = s.users := rfl

@[simp] theorem schedule_bedQueue (t : ℚ) (e : Ev) (s : SimState) :
    (schedule t e s).bedQueue = s.bedQueue := rfl

@[simp] theorem schedule_samples (t : ℚ) (e : Ev) (s : SimState) :
    (schedule t e s).samples = s.samples := rfl

@[simp] theorem schedule_patients (t : ℚ) (e : Ev) (s : SimState) :
    (schedule t e s).patients = s.patients := rfl

@[simp] theorem schedule_nextPatientId (t : ℚ) (e : Ev) (s : SimState) :
    (schedule t e s).nextPatientId = s.nextPatientId := rfl

@[simp] theorem schedule_trace (t : ℚ) (e : Ev) (s : SimState) :
    (schedule t e s).trace = s.trace := rfl

@[simp] theorem recordOccupancy_now (s : SimState) :
    (recordOccupancy s).now = s.now := rfl

@[simp] theorem recordOccupancy_events (s : SimState) :
    (recordOccupancy s).events = s.events := rfl

@[simp] theorem recordOccupancy_nextSeq (s : SimState) :
    (recordOccupancy s).nextSeq = s.nextSeq := rfl

@[simp] theorem recordOccupancy_rngIdx (s : SimState) :
    (recordOccupancy s).rngIdx = s.rngIdx := rfl

@[simp] theorem recordOccupancy_occupiedBeds (s : SimState) :
    (recordOccupancy s).occupiedBeds = s.occupiedBeds := rfl

@[simp] theorem recordOccupancy_users (s : SimState) :
    (recordOccupancy s).users = s.users := rfl

@[simp] theorem recordOccupancy_bedQueue (s : SimState) :
    (recordOccupancy s).bedQueue = s.bedQueue := rfl

@[simp] theorem recordOccupancy_samples (s : SimState) :
    (recordOccupancy s).samples = s.samples ++ [(s.now, s.occupiedBeds)] := rfl

@[simp] theorem recordOccupancy_patients (s : SimState) :
    (recordOccupancy s).patients = s.patients := rfl

@[simp] theorem recordOccupancy_nextPatientId (s : SimState) :
    (recordOccupancy s).nextPatientId = s.nextPatientId := rfl

@[simp] theorem recordOccupancy_trace (s : SimState) :
    (recordOccupancy s).trace = s.trace ++ [.sampled s.now s.occupiedBeds] := rfl

/-! ## Basic lemmas on the event-queue primitives -/

/-- `popMinBy` returns `none` exactly on the empty list. -/
theorem popMinBy_eq_none {le : α → α → Bool} {l : List α} :
    popMinBy le l = none ↔ l = [] := by
  cases l with
  | nil => simp [popMinBy]
  | cons x xs =>
    rw [popMinBy]
    rcases h : popMinBy le xs with _ | ⟨m, r⟩
    · change some (x, xs) = none ↔ x :: xs = []
      simp
    · change (if le x m = true then some (x, xs) else some (m, x :: r)) = none ↔
        x :: xs = []
      split <;> simp

/-- The popped element together with the remainder is a permutation of the
input. -/
theorem popMinBy_perm {le : α → α → Bool} {l : List α} {m : α} {r : List α}
    (h : popMinBy le l = some (m, r)) : l.Perm (m :: r) := by
  induction l generalizing m r with
  | nil => simp [popMinBy] at h
  | cons x xs ih =>
    rw [popMinBy] at h
    rcases h' : popMinBy le xs with _ | ⟨m', r'⟩
    · rw [h'] at h
      simp only [Option.some.injEq, Prod.mk.injEq] at h
      rw [← h.1, ← h.2]
    · rw [h'] at h
      by_cases hle : le x m'
      · simp only [hle, if_pos, Option.some.injEq, Prod.mk.injEq] at h
        rw [← h.1, ← h.2]
      · simp only [hle, if_neg, Option.some.injEq, Prod.mk.injEq,
          Bool.not_eq_true] at h
        rw [← h.1, ← h.2]
        exact ((ih h').cons x).trans (List.Perm.swap m' x r')

/-- The popped element is minimal, provided `le` is total and transitive. -/
theorem popMinBy_min {le : α → α → Bool}
    (htot : ∀ a b, le a b = true ∨ le b a = true)
    (htrans : ∀ a b c, le a b = true → le b c = true → le a c = true)
    {l : List α} {m : α} {r : List α}
    (h : popMinBy le l = some (m, r)) : ∀ x ∈ l, le m x = true := by
  induction l generalizing m r with
  | nil => simp [popMinBy] at h
  | cons x xs ih =>
    have hxx : ∀ a : α, le a a = true := fun a => (htot a a).elim id id
    rw [popMinBy] at h
    rcases h' : popMinBy le xs with _ | ⟨m', r'⟩
    · rw [h'] at h
      simp only [Option.some.injEq, Prod.mk.injEq] at h
      intro y hy
      rw [← h.1]
      rcases List.mem_cons.mp hy with hEq | hy'
      · rw [hEq]; exact hxx _
      · rw [popMinBy_eq_none.mp h'] at hy'
        cases hy'
    · rw [h'] at h
      by_cases hle : le x m'
      · simp only [hle, if_pos, Option.some.injEq, Prod.mk.injEq] at h
        intro y hy
        rw [← h.1]
        rcases List.mem_cons.mp hy with hEq | hy'
        · rw [hEq]; exact hxx _
        · exact htrans _ _ _ hle (ih h' y hy')
      · simp only [hle, if_neg, Option.some.injEq, Prod.mk.injEq,
          Bool.not_eq_true] at h
        intro y hy
        rw [← h.1]
        rcases List.mem_cons.mp hy with hEq | hy'
        · rw [hEq]
          rcases htot x m' with hc | hc
          · exact absurd hc hle
          · exact hc
        · exact ih h' y hy'

/-- `eventLE` is total. -/
theorem eventLE_total : ∀ a b : SimEvent, eventLE a b = true ∨ eventLE b a = true := by
  intro a b
  unfold eventLE
  rcases lt_trichotomy a.time b.time with h | h | h
  · left; simp [h]
  · rcases Nat.le_total a.seq b.seq with h' | h'
    · left; simp [h, h']
    · right; simp [h.symm, h']
  · right; simp [h]

/-- `eventLE` is transitive. -/
theorem eventLE_trans : ∀ a b c : SimEvent,
    eventLE a b = true → eventLE b c = true → eventLE a c = true := by
  intro a b c hab hbc
  unfold eventLE at hab hbc ⊢
  rw [decide_eq_true_eq] at hab hbc ⊢
  rcases hab with h | ⟨h, h'⟩ <;> rcases hbc with g | ⟨g, g'⟩
  · exact Or.inl (h.trans g)
  · exact Or.inl (g ▸ h)
  · exact Or.inl (h ▸ g)
  · exact Or.inr ⟨h.trans g, h'.trans g'⟩

/-- The minimal event is due no later than every pending event. -/
theorem eventLE_time {a b : SimEvent} (h : eventLE a b = true) : a.time ≤ b.time := by
  unfold eventLE at h
  rw [decide_eq_true_eq] at h
  rcases h with h | ⟨h, _⟩
  · exact le_of_lt h
  · exact le_of_eq h

/-- `queueLE` is total. -/
theorem queueLE_total : ∀ a b : ℕ × ℕ × PatientInfo,
    queueLE a b = true ∨ queueLE b a = true := by
  intro a b
  unfold queueLE
  rcases lt_trichotomy a.1 b.1 with h | h | h
  · left; simp [h]
  · rcases Nat.le_total a.2.1 b.2.1 with h' | h'
    · left; simp [h, h']
    · right; simp [h.symm, h']
  · right; simp [h]

/-- Members of a nonnegative list give a nonnegative stream. -/
theorem listStream_nonneg {l : List ℚ} (h : ∀ x ∈ l, 0 ≤ x) :
    ∀ i, 0 ≤ listStream l i := by
  intro i
  unfold listStream
  have : l.getD i 0 ∈ l ∨ l.getD i 0 = 0 := by
    unfold List.getD
    rcases h'' : l.get? i with _ | x
    · right; simp [h'']
    · left
      simp only [h'', Option.getD_some]
      exact List.get?_mem h''
  rcases this with hm | hz
  · exact h _ hm
  · rw [hz]

/-- Generic invariant induction principle for the event loop: a predicate
preserved by every fuelled step and by the final clock adjustment holds of
the loop's result. -/
theorem runLoop_inv (cfg : Config) (u : ℕ → ℚ) (P : SimState → Prop)
    (hstep : ∀ s e rest, P s → popMinBy eventLE s.events = some (e, rest) →
      e.time < (cfg.simulationTime : ℚ) →
      P (stepEv cfg u e { s with events := rest, now := e.time }))
    (hstopN : ∀ s, P s → s.events = [] →
      P { s with now := (cfg.simulationTime : ℚ) })
    (hstopS : ∀ s e rest, P s → popMinBy eventLE s.events = some (e, rest) →
      ¬ e.time < (cfg.simulationTime : ℚ) →
      P { s with now := (cfg.simulationTime : ℚ) }) :
    ∀ fuel s, P s → P (runLoop cfg u fuel s).1 := by
  intro fuel
  induction fuel with
  | zero => intro s h; exact h
  | succ n ih =>
    intro s h
    rw [runLoop]
    rcases hp : popMinBy eventLE s.events with _ | ⟨e, rest⟩
    · exact hstopN s h (popMinBy_eq_none.mp hp)
    · by_cases ht : e.time < (cfg.simulationTime : ℚ)
      · simp only [ht, if_pos]
        exact ih _ (hstep s e rest h hp ht)
      · simp only [ht, if_neg, not_false_iff]
        exact hstopS s e rest h hp ht

/-! ## The bed-count invariant -/

/-- `InvB` holds initially. -/
theorem invB_init (cfg : Config) : InvB cfg initState := by
  refine ⟨?_, ?_, ?_, ?_⟩ <;> simp [initState, InvB, isDischargeEv, isGrantedEv]

/-- `InvB` is preserved by every step of the event loop. -/
theorem invB_step (cfg : Config) (u : ℕ → ℚ) (s : SimState) (e : SimEvent)
    (rest : List SimEvent) (h : InvB cfg s)
    (hp : popMinBy eventLE s.events = some (e, rest)) :
    InvB cfg (stepEv cfg u e { s with events := rest, now := e.time }) := by
  obtain ⟨h1, h2, h3, h4⟩ := h
  have hperm := popMinBy_perm hp
  have hcd : s.events.countP isDischargeEv
      = rest.countP isDischargeEv + (if isDischargeEv e then 1 else 0) := by
    rw [hperm.countP_eq, List.countP_cons]
  have hcg : s.events.countP isGrantedEv
      = rest.countP isGrantedEv + (if isGrantedEv e then 1 else 0) := by
    rw [hperm.countP_eq, List.countP_cons]
  obtain ⟨t, q, ev⟩ := e
  cases ev with
  | monitor =>
    simp [isDischargeEv, isGrantedEv] at hcd hcg
    simp only [stepEv, stepMonitor]
    have hb : 0 ≤ s.occupiedBeds ∧ s.occupiedBeds ≤ (bedCapacity cfg : ℤ) := by
      omega
    refine ⟨?_, ?_, ?_, ?_⟩
    · simp [List.countP_append, List.countP_cons, isDischargeEv]
      omega
    · simp [List.countP_append, List.countP_cons, isDischargeEv, isGrantedEv]
      omega
    · simpa using h3
    · simp only [schedule_samples, recordOccupancy_samples]
      intro tc htc
      rcases List.mem_append.mp htc with hold | hnew
      · exact h4 tc hold
      · rw [List.mem_singleton] at hnew
        subst hnew
        exact hb
  | genInit =>
    simp [isDischargeEv, isGrantedEv] at hcd hcg
    simp only [stepEv, genLoopTop, expDraw]
    split
    · refine ⟨?_, ?_, ?_, ?_⟩
      · simp [List.countP_append, List.countP_cons, isDischargeEv]
        omega
      · simp [List.countP_append, List.countP_cons, isDischargeEv, isGrantedEv]
        omega
      · simpa using h3
      · simpa using h4
    · refine ⟨by simpa using by omega, by simpa using by omega, h3, h4⟩
  | genWake =>
    simp [isDischargeEv, isGrantedEv] at hcd hcg
    simp only [stepEv, stepGenWake, choiceDraw, expDraw, genLoopTop]
    split <;> split <;>
      refine ⟨by simp [List.countP_append, List.countP_cons, isDischargeEv]; omega,
        by simp [List.countP_append, List.countP_cons, isDischargeEv, isGrantedEv]; omega,
        by simpa using h3, by simpa using h4⟩
  | patientStart pid pt los =>
    simp [isDischargeEv, isGrantedEv] at hcd hcg
    rcases hnm : nmcrDraw cfg u los s.rngIdx with ⟨outcome, i⟩
    simp only [stepEv, stepPatientStart, hnm]
    split
    · have hb : 0 ≤ s.occupiedBeds + 1 ∧
          s.occupiedBeds + 1 ≤ (bedCapacity cfg : ℤ) := by
        omega
      refine ⟨?_, ?_, ?_, ?_⟩
      · simp [List.countP_append, List.countP_cons, isDischargeEv]
        omega
      · simp [List.countP_append, List.countP_cons, isDischargeEv, isGrantedEv]
        omega
      · simp only [schedule_users, recordOccupancy_users]
        omega
      · simp only [schedule_samples, recordOccupancy_samples]
        intro tc htc
        rcases List.mem_append.mp htc with hold | hnew
        · exact h4 tc hold
        · rw [List.mem_singleton] at hnew
          subst hnew
          exact hb
    · refine ⟨by simpa using by omega, by simpa using by omega, by simpa using h3,
        by simpa using h4⟩
  | bedGranted info =>
    simp [isDischargeEv, isGrantedEv] at hcd hcg
    simp only [stepEv, stepBedGranted]
    have hb : 0 ≤ s.occupiedBeds + 1 ∧
        s.occupiedBeds + 1 ≤ (bedCapacity cfg : ℤ) := by
      omega
    refine ⟨?_, ?_, ?_, ?_⟩
    · simp [List.countP_append, List.countP_cons, isDischargeEv]
      omega
    · simp [List.countP_append, List.countP_cons, isDischargeEv, isGrantedEv]
      omega
    · simpa using h3
    · simp only [schedule_samples, recordOccupancy_samples]
      intro tc htc
      rcases List.mem_append.mp htc with hold | hnew
      · exact h4 tc hold
      · rw [List.mem_singleton] at hnew
        subst hnew
        exact hb
  | discharge info tA =>
    simp [isDischargeEv, isGrantedEv] at hcd hcg
    simp only [stepEv, stepDischarge]
    have hb : 0 ≤ s.occupiedBeds - 1 ∧
        s.occupiedBeds - 1 ≤ (bedCapacity cfg : ℤ) := by
      omega
    split
    · refine ⟨?_, ?_, ?_, ?_⟩
      · simp [List.countP_append, List.countP_cons, isDischargeEv]
        omega
      · simp [List.countP_append, List.countP_cons, isDischargeEv, isGrantedEv]
        omega
      · show s.users - 1 ≤ bedCapacity cfg
        omega
      · simp only [schedule_samples, recordOccupancy_samples]
        intro tc htc
        rcases List.mem_append.mp htc with hold | hnew
        · exact h4 tc hold
        · rw [List.mem_singleton] at hnew
          subst hnew
          exact hb
    · refine ⟨?_, ?_, ?_, ?_⟩
      · simp [List.countP_append, List.countP_cons, isDischargeEv, isGrantedEv]
        omega
      · simp [List.countP_append, List.countP_cons, isDischargeEv, isGrantedEv]
        omega
      · show s.users - 1 + 1 ≤ bedCapacity cfg
        omega
      · simp only [schedule_samples, recordOccupancy_samples]
        intro tc htc
        rcases List.mem_append.mp htc with hold | hnew
        · exact h4 tc hold
        · rw [List.mem_singleton] at hnew
          subst hnew
          exact hb

/-- `InvB` holds of the final state of any run. -/
theorem invB_run (cfg : Config) (u : ℕ → ℚ) (fuel : ℕ) :
    InvB cfg (runSimulation cfg u fuel).1 := by
  refine runLoop_inv cfg u (InvB cfg) ?_ ?_ ?_ fuel initState (invB_init cfg)
  · intro s e rest h hp _
    exact invB_step cfg u s e rest h hp
  · intro s h _
    exact h
  · intro s e rest h _ _
    exact h

/-! ## Claim C1 -/

/-- C1: at every point of a simulation run, and for every recorded occupancy
sample, the occupied-bed count satisfies
`0 ≤ occupied_count ≤ base_capacity + extra_capacity`, where
`extra_capacity = base_capacity / extra_bed_ratio` by floor division. -/
theorem spec_c1_occupancy_bounds (cfg : Config) (u : ℕ → ℚ) (fuel : ℕ) :
    (∀ tc ∈ (runSimulation cfg u fuel).1.samples,
      0 ≤ tc.2 ∧ tc.2 ≤ ((cfg.numBeds + cfg.numBeds / cfg.extraBedRatio : ℕ) : ℤ)) ∧
    0 ≤ (runSimulation cfg u fuel).1.occupiedBeds ∧
    (runSimulation cfg u fuel).1.occupiedBeds
      ≤ ((cfg.numBeds + cfg.numBeds / cfg.extraBedRatio : ℕ) : ℤ) := by
  obtain ⟨h1, h2, h3, h4⟩ := invB_run cfg u fuel
  refine ⟨fun tc htc => h4 tc htc, ?_, ?_⟩
  · omega
  · show (runSimulation cfg u fuel).1.occupiedBeds ≤ ((bedCapacity cfg : ℕ) : ℤ)
    omega

/-- Witness for C1 at a concrete run: the first recorded sample of the
saturation scenario. -/
theorem spec_c1_occupancy_bounds_witness :
    ((0 : ℚ), (0 : ℤ)) ∈ (runSimulation cfgSat uSat 12).1.samples ∧
      0 ≤ (((0 : ℚ), (0 : ℤ)) : ℚ × ℤ).2 ∧
      (((0 : ℚ), (0 : ℤ)) : ℚ × ℤ).2
        ≤ ((cfgSat.numBeds + cfgSat.numBeds / cfgSat.extraBedRatio : ℕ) : ℤ) := by
  have hmem : ((0 : ℚ), (0 : ℤ)) ∈ (runSimulation cfgSat uSat 12).1.samples := by
    norm_num [runSimulation, runLoop, initState, stepEv, stepMonitor, genLoopTop,
      stepGenWake, stepPatientStart, stepBedGranted, stepDischarge, recordOccupancy,
      schedule, popMinBy, eventLE, queueLE, nmcrDraw, randDraw, expDraw, choiceDraw,
      totalRate, bedCapacity, admitPriority, cfgSat, uSat, listStream,
      decide_eq_true_eq]
  exact ⟨hmem, (spec_c1_occupancy_bounds cfgSat uSat 12).1 _ hmem⟩

/-! ## Claims C2 and C3 -/

/-- C2 is violated by the code: with bed boarding disabled and
`base_capacity = 2` (extra-bed ratio 2, so the resource pool still has
capacity 3), the saturation run records a sample with occupancy 3 > 2 at time
3/100.  `ENABLE_BED_BOARDING` only changes the priority passed to the
request; it does not shrink the resource pool, and `simpy.PriorityResource`
grants any request while a slot is free. -/
theorem spec_c2_boarding_disabled_overflow :
    cfgSat.enableBedBoarding = false ∧ cfgSat.numBeds = 2 ∧
      ((3 : ℚ)/100, (3 : ℤ)) ∈ (runSimulation cfgSat uSat 12).1.samples := by
  refine ⟨rfl, rfl, ?_⟩
  norm_num [runSimulation, runLoop, initState, stepEv, stepMonitor, genLoopTop,
    stepGenWake, stepPatientStart, stepBedGranted, stepDischarge, recordOccupancy,
    schedule, popMinBy, eventLE, queueLE, nmcrDraw, randDraw, expDraw, choiceDraw,
    totalRate, bedCapacity, admitPriority, cfgSat, uSat, listStream,
    decide_eq_true_eq]

/-- C3's tier formula matches the code, but its queueing clause is violated:
in the saturation run patient 2's request is computed at tier 2 (occupancy 2,
boarding disabled), yet it is granted synchronously (the `requested 2 2 true`
trace entry) and the patient is admitted at its own arrival time 3/100 with
no release having occurred. -/
theorem spec_c3_tier2_admitted_synchronously :
    cfgSat.enableBedBoarding = false ∧ admitPriority cfgSat 2 = 2 ∧
      Action.requested 2 2 true ∈ (runSimulation cfgSat uSat 12).1.trace ∧
      Action.admitted 2 (3/100) ∈ (runSimulation cfgSat uSat 12).1.trace ∧
      (runSimulation cfgSat uSat 12).1.trace.countP isReleased = 0 := by
  refine ⟨rfl, by norm_num [admitPriority, bedCapacity, cfgSat], ?_⟩
  norm_num [runSimulation, runLoop, initState, stepEv, stepMonitor, genLoopTop,
    stepGenWake, stepPatientStart, stepBedGranted, stepDischarge, recordOccupancy,
    schedule, popMinBy, eventLE, queueLE, nmcrDraw, randDraw, expDraw, choiceDraw,
    totalRate, bedCapacity, admitPriority, cfgSat, uSat, listStream,
    List.countP_cons, isReleased, decide_eq_true_eq]

/-! ## Claim C4 -/

/-- C4: for a fixed configuration and a fixed seed (hence a fixed raw random
stream), two runs of the simulation produce identical ordered sample
sequences and identical patient logs. -/
theorem spec_c4_determinism (cfg : Config) (u : ℕ → ℚ) (fuel : ℕ)
    (r1 r2 : SimState × Bool)
    (h1 : r1 = runSimulation cfg u fuel) (h2 : r2 = runSimulation cfg u fuel) :
    r1.1.samples = r2.1.samples ∧ r1.1.patients = r2.1.patients := by
  subst h1
  subst h2
  exact ⟨rfl, rfl⟩

/-- Witness for C4 at a concrete configuration. -/
theorem spec_c4_determinism_witness :
    (runSimulation cfgOne uOne 8).1.samples
        = (runSimulation cfgOne uOne 8).1.samples ∧
      (runSimulation cfgOne uOne 8).1.patients
        = (runSimulation cfgOne uOne 8).1.patients :=
  spec_c4_determinism cfgOne uOne 8 _ _ rfl rfl

/-! ## Claim C10 -/

/-- C10: when the LOS page proposes adjusted per-type LOS values (current
weighted average differs from the ideal by more than 0.01), the
arrival-rate-weighted average of the adjusted values equals the ideal average
LOS `(target_occupancy_rate/100 * NUM_BEDS) / total_arrival_rate`. -/
theorem spec_c10_adjusted_los_average (rates currentMeanLos : PType → ℚ)
    (targetOccupancyRate numBeds : ℚ)
    (hm : 0 ≤ rates .medical) (hs : 0 ≤ rates .surgical)
    (hpos : 0 < totalArrivalRate rates)
    (hlm : 0 < currentMeanLos .medical) (hls : 0 < currentMeanLos .surgical)
    (hprop : |weightedAverageLos rates currentMeanLos
        - idealAverageLos targetOccupancyRate numBeds (totalArrivalRate rates)|
        > 1/100) :
    (rates .medical * adjustedLos rates currentMeanLos
          (idealAverageLos targetOccupancyRate numBeds (totalArrivalRate rates))
          .medical
        + rates .surgical * adjustedLos rates currentMeanLos
          (idealAverageLos targetOccupancyRate numBeds (totalArrivalRate rates))
          .surgical)
        / totalArrivalRate rates
      = idealAverageLos targetOccupancyRate numBeds (totalArrivalRate rates) := by
  unfold totalArrivalRate at hpos
  have hnum : 0 < rates .medical * currentMeanLos .medical
      + rates .surgical * currentMeanLos .surgical := by
    rcases lt_or_le 0 (rates .medical) with h | h
    · nlinarith [mul_pos h hlm, mul_nonneg hs hls.le]
    · have hm0 : rates .medical = 0 := le_antisymm h hm
      have hs0 : 0 < rates .surgical := by rw [hm0] at hpos; linarith
      nlinarith [mul_pos hs0 hls, mul_nonneg hm hlm.le]
  have hT : rates .medical + rates .surgical ≠ 0 := ne_of_gt hpos
  have hW : weightedAverageLos rates currentMeanLos ≠ 0 := by
    unfold weightedAverageLos
    exact ne_of_gt (div_pos hnum hpos)
  unfold adjustedLos weightedAverageLos totalArrivalRate at *
  field_simp
  ring

/-- Witness for C10 at the page's default inputs (rates 5 and 5, current
mean LOS 7 and 7, target occupancy 85 %, 100 beds). -/
theorem spec_c10_adjusted_los_average_witness :
    ((fun _ : PType => (5 : ℚ)) .medical * adjustedLos (fun _ => 5) (fun _ => 7)
          (idealAverageLos 85 100 (totalArrivalRate (fun _ => 5))) .medical
        + (fun _ : PType => (5 : ℚ)) .surgical * adjustedLos (fun _ => 5) (fun _ => 7)
          (idealAverageLos 85 100 (totalArrivalRate (fun _ => 5))) .surgical)
        / totalArrivalRate (fun _ => 5)
      = idealAverageLos 85 100 (totalArrivalRate (fun _ => 5)) := by
  refine spec_c10_adjusted_los_average (fun _ => 5) (fun _ => 7) 85 100
    (by norm_num) (by norm_num) (by norm_num [totalArrivalRate]) (by norm_num)
    (by norm_num) ?_
  have hd : weightedAverageLos (fun _ => (5 : ℚ)) (fun _ => 7)
      - idealAverageLos 85 100 (totalArrivalRate fun _ => 5) = -(3/2) := by
    norm_num [weightedAverageLos, idealAverageLos, totalArrivalRate]
  rw [hd, abs_neg, abs_of_pos] <;> norm_num

/-! ## Claim C7 -/

/-- With a zero total arrival rate the event queue only ever holds
`monitor_occupancy` and generator-initialization events (the generator
breaks out of its loop immediately), so no patient is ever spawned and the
patient log stays empty. -/
theorem zeroRate_run (cfg : Config) (u : ℕ → ℚ) (fuel : ℕ)
    (h0 : totalRate cfg = 0) :
    (runSimulation cfg u fuel).1.patients = [] ∧
      (runSimulation cfg u fuel).1.nextPatientId = 0 := by
  have key : ∀ fuel s,
      ((∀ e ∈ s.events, e.ev = .monitor ∨ e.ev = .genInit) ∧
        s.patients = [] ∧ s.nextPatientId = 0) →
      ((∀ e ∈ (runLoop cfg u fuel s).1.events,
          e.ev = .monitor ∨ e.ev = .genInit) ∧
        (runLoop cfg u fuel s).1.patients = [] ∧
        (runLoop cfg u fuel s).1.nextPatientId = 0) := by
    refine fun fuel => runLoop_inv cfg u _ ?_ (fun s h _ => h) (fun s e r h _ _ => h) fuel
    intro s e rest ⟨hev, hpat, hpid⟩ hp _
    have hperm := popMinBy_perm hp
    have hmem : e ∈ s.events := hperm.mem_iff.mpr (List.mem_cons_self e rest)
    have hrest : ∀ x ∈ rest, x.ev = .monitor ∨ x.ev = .genInit := by
      intro x hx
      exact hev x (hperm.mem_iff.mpr (List.mem_cons_of_mem e hx))
    obtain ⟨t, q, ev⟩ := e
    rcases hev _ hmem with hm | hg
    · simp only at hm
      subst hm
      simp only [stepEv, stepMonitor]
      refine ⟨?_, by simpa using hpat, by simpa using hpid⟩
      intro x hx
      simp only [schedule_events, recordOccupancy_events, recordOccupancy_nextSeq,
        List.mem_append, List.mem_singleton] at hx
      rcases hx with hx1 | hx2
      · exact hrest x hx1
      · subst hx2
        exact Or.inl rfl
    · simp only at hg
      subst hg
      simp only [stepEv, genLoopTop, h0, ne_eq, not_true_eq_false, and_false,
        if_false]
      exact ⟨hrest, hpat, hpid⟩
  have init : (∀ e ∈ initState.events, e.ev = .monitor ∨ e.ev = .genInit) ∧
      initState.patients = [] ∧ initState.nextPatientId = 0 := by
    refine ⟨?_, rfl, rfl⟩
    intro e he
    simp only [initState, List.mem_cons, List.not_mem_nil, or_false] at he
    rcases he with rfl | rfl
    · exact Or.inl rfl
    · exact Or.inr rfl
  exact ⟨(key fuel initState init).2.1, (key fuel initState init).2.2⟩

/-- C7 as stated is refuted on the code: with every arrival rate zero, the
simulation is not rejected — the run starts, completes to the horizon
(`done = true`) and the occupancy monitor records samples. -/
theorem spec_c7_zero_rate_not_rejected :
    totalRate cfgZero = 0 ∧ (runSimulation cfgZero uSat 4).2 = true ∧
      (runSimulation cfgZero uSat 4).1.samples ≠ [] := by
  refine ⟨by norm_num [totalRate, cfgZero, cfgSat], ?_, ?_⟩ <;>
    norm_num [runSimulation, runLoop, initState, stepEv, stepMonitor, genLoopTop,
      stepGenWake, stepPatientStart, stepBedGranted, stepDischarge,
      recordOccupancy, schedule, popMinBy, eventLE, queueLE, nmcrDraw, randDraw,
      expDraw, choiceDraw, totalRate, bedCapacity, admitPriority, cfgZero, cfgSat,
      uSat, listStream, decide_eq_true_eq]

/-- C7 amended: a zero total arrival rate is not rejected by the simulation —
the arrival generator exits immediately, the run proceeds with an empty
patient log and no patient ever spawned; only the separate occupancy/LOS
calculator page stops (`st.stop()`) when the total arrival rate is zero. -/
theorem spec_c7_zero_rate_amended (cfg : Config) (u : ℕ → ℚ) (fuel : ℕ)
    (h0 : totalRate cfg = 0) :
    (runSimulation cfg u fuel).1.patients = [] ∧
      (runSimulation cfg u fuel).1.nextPatientId = 0 ∧
      occupancyPageProceeds cfg.arrivalRates = false := by
  refine ⟨(zeroRate_run cfg u fuel h0).1, (zeroRate_run cfg u fuel h0).2, ?_⟩
  have : totalArrivalRate cfg.arrivalRates = 0 := h0
  simp [occupancyPageProceeds, this]

/-- Witness for the amended C7 at the concrete zero-rate configuration. -/
theorem spec_c7_zero_rate_amended_witness :
    (runSimulation cfgZero uSat 4).1.patients = [] ∧
      (runSimulation cfgZero uSat 4).1.nextPatientId = 0 ∧
      occupancyPageProceeds cfgZero.arrivalRates = false :=
  spec_c7_zero_rate_amended cfgZero uSat 4 (by norm_num [totalRate, cfgZero, cfgSat])

/-! ## Trace well-formedness (admissions and releases are sampled at once) -/

/-- `okTrace` is closed under concatenation: a well-formed history followed by
a well-formed block stays well-formed (a well-formed history never ends in an
unsampled change). -/
theorem okTrace_append {ys : List Action} (hy : okTrace ys = true) :
    ∀ xs, okTrace xs = true → okTrace (xs ++ ys) = true := by
  intro xs
  induction xs with
  | nil => intro _; simpa using hy
  | cons a rest ih =>
    intro hx
    cases rest with
    | nil =>
      cases a with
      | requested p pr g => simpa [okTrace, changeTime] using hy
      | sampled t c => simpa [okTrace, changeTime] using hy
      | admitted p t => simp [okTrace, changeTime] at hx
      | released p t => simp [okTrace, changeTime] at hx
    | cons b rest2 =>
      cases a with
      | requested p pr g =>
        show okTrace ((b :: rest2) ++ ys) = true
        exact ih hx
      | sampled t c =>
        show okTrace ((b :: rest2) ++ ys) = true
        exact ih hx
      | admitted p t =>
        cases b with
        | sampled t2 c =>
          have hx2 : (t == t2) = true ∧ okTrace (.sampled t2 c :: rest2) = true := by
            simpa [okTrace, changeTime, Bool.and_eq_true] using hx
          show ((t == t2) && okTrace ((Action.sampled t2 c :: rest2) ++ ys)) = true
          rw [hx2.1, ih hx2.2]
          rfl
        | requested p2 pr2 g2 => simp [okTrace, changeTime] at hx
        | admitted p2 t2 => simp [okTrace, changeTime] at hx
        | released p2 t2 => simp [okTrace, changeTime] at hx
      | released p t =>
        cases b with
        | sampled t2 c =>
          have hx2 : (t == t2) = true ∧ okTrace (.sampled t2 c :: rest2) = true := by
            simpa [okTrace, changeTime, Bool.and_eq_true] using hx
          show ((t == t2) && okTrace ((Action.sampled t2 c :: rest2) ++ ys)) = true
          rw [hx2.1, ih hx2.2]
          rfl
        | requested p2 pr2 g2 => simp [okTrace, changeTime] at hx
        | admitted p2 t2 => simp [okTrace, changeTime] at hx
        | released p2 t2 => simp [okTrace, changeTime] at hx

/-- The trace blocks appended by the step functions are well-formed. -/
theorem okTrace_sample_block (t : ℚ) (c : ℤ) :
    okTrace [.sampled t c] = true := rfl

/-- A synchronous grant appends the request, the admission and its sample. -/
theorem okTrace_grant_block (p pr : ℕ) (g : Bool) (t : ℚ) (c : ℤ) :
    okTrace [.requested p pr g, .admitted p t, .sampled t c] = true := by
  simp [okTrace, changeTime]

/-- A queued request appends only the request entry. -/
theorem okTrace_queued_block (p pr : ℕ) (g : Bool) :
    okTrace [.requested p pr g] = true := rfl

/-- A promoted admission appends the admission and its sample. -/
theorem okTrace_admit_block (p : ℕ) (t : ℚ) (c : ℤ) :
    okTrace [.admitted p t, .sampled t c] = true := by
  simp [okTrace, changeTime]

/-- A release appends the release and its sample. -/
theorem okTrace_release_block (p : ℕ) (t : ℚ) (c : ℤ) :
    okTrace [.released p t, .sampled t c] = true := by
  simp [okTrace, changeTime]

/-- `InvTrace` is preserved by every step of the event loop. -/
theorem invTrace_step (cfg : Config) (u : ℕ → ℚ) (s : SimState) (e : SimEvent)
    (h : InvTrace s) : InvTrace (stepEv cfg u e s) := by
  obtain ⟨t, q, ev⟩ := e
  cases ev with
  | monitor =>
    show okTrace (s.trace ++ [.sampled s.now s.occupiedBeds]) = true
    exact okTrace_append (okTrace_sample_block _ _) _ h
  | genInit =>
    simp only [stepEv, genLoopTop, expDraw]
    split
    · exact h
    · exact h
  | genWake =>
    simp only [stepEv, stepGenWake, choiceDraw, expDraw, genLoopTop]
    split <;> split <;> exact h
  | patientStart pid pt los =>
    rcases hnm : nmcrDraw cfg u los s.rngIdx with ⟨outcome, i⟩
    simp only [stepEv, stepPatientStart, hnm]
    split
    · show okTrace ((s.trace ++ [.requested pid _ true, .admitted pid s.now])
        ++ [.sampled s.now (s.occupiedBeds + 1)]) = true
      rw [List.append_assoc]
      exact okTrace_append
        (okTrace_grant_block pid _ true s.now (s.occupiedBeds + 1)) _ h
    · show okTrace (s.trace ++ [.requested pid _ false]) = true
      exact okTrace_append (okTrace_queued_block pid _ false) _ h
  | bedGranted info =>
    show okTrace ((s.trace ++ [.admitted info.patientId s.now])
        ++ [.sampled s.now (s.occupiedBeds + 1)]) = true
    rw [List.append_assoc]
    exact okTrace_append
      (okTrace_admit_block info.patientId s.now (s.occupiedBeds + 1)) _ h
  | discharge info tA =>
    simp only [stepEv, stepDischarge]
    split
    · show okTrace ((s.trace ++ [.released info.patientId s.now])
        ++ [.sampled s.now (s.occupiedBeds - 1)]) = true
      rw [List.append_assoc]
      exact okTrace_append
        (okTrace_release_block info.patientId s.now (s.occupiedBeds - 1)) _ h
    · show okTrace ((s.trace ++ [.released info.patientId s.now])
        ++ [.sampled s.now (s.occupiedBeds - 1)]) = true
      rw [List.append_assoc]
      exact okTrace_append
        (okTrace_release_block info.patientId s.now (s.occupiedBeds - 1)) _ h

/-- `InvTrace` holds of the final state of any run. -/
theorem invTrace_run (cfg : Config) (u : ℕ → ℚ) (fuel : ℕ) :
    InvTrace (runSimulation cfg u fuel).1 := by
  refine runLoop_inv cfg u InvTrace ?_ (fun s h _ => h) (fun s e r h _ _ => h)
    fuel initState rfl
  intro s e rest h _ _
  exact invTrace_step cfg u _ e h

/-! ## The monitor cadence invariant -/

/-- `InvM` is preserved by every step of the event loop. -/
theorem invM_step (cfg : Config) (u : ℕ → ℚ) (s : SimState) (e : SimEvent)
    (rest : List SimEvent) (h : InvM s)
    (hp : popMinBy eventLE s.events = some (e, rest)) :
    InvM (stepEv cfg u e { s with events := rest, now := e.time }) := by
  obtain ⟨h1, h2⟩ := h
  have hperm := popMinBy_perm hp
  have hcm : s.events.countP isMonitorEv
      = rest.countP isMonitorEv + (if isMonitorEv e then 1 else 0) := by
    rw [hperm.countP_eq, List.countP_cons]
  have hmem : e ∈ s.events := hperm.mem_iff.mpr (List.mem_cons_self e rest)
  have hrestmem : ∀ x ∈ rest, x ∈ s.events := fun x hx =>
    hperm.mem_iff.mpr (List.mem_cons_of_mem e hx)
  have hpres : ∀ (samples' : List (ℚ × ℤ)), (∀ y ∈ s.samples, y ∈ samples') →
      ∀ x ∈ rest, isMonitorEv x = true →
        ∃ m : ℕ, x.time = (m : ℚ) ∧
          ∀ k : ℕ, k < m → ∃ c : ℤ, ((k : ℚ), c) ∈ samples' := by
    intro samples' hsub x hx hxm
    obtain ⟨m, hmt, hcov⟩ := h2 x (hrestmem x hx) hxm
    exact ⟨m, hmt, fun k hk => (hcov k hk).imp (fun c hc => hsub _ hc)⟩
  obtain ⟨t, q, ev⟩ := e
  cases ev with
  | monitor =>
    have hm0 : rest.countP isMonitorEv = 0 := by
      simp [isMonitorEv] at hcm
      omega
    obtain ⟨m, hmt, hcov⟩ := h2 _ hmem rfl
    simp only at hmt
    refine ⟨?_, ?_⟩
    · simp only [stepEv, stepMonitor, schedule_events, recordOccupancy_events,
        List.countP_append, List.countP_cons, List.countP_nil]
      simp [isMonitorEv, hm0]
    · intro x hx hxm
      simp only [stepEv, stepMonitor, schedule_events, recordOccupancy_events,
        List.mem_append, List.mem_singleton] at hx
      rcases hx with hx1 | hx2
      · exact absurd hxm (by simpa using List.countP_eq_zero.mp hm0 x hx1)
      · subst hx2
        refine ⟨m + 1, ?_, ?_⟩
        · show t + 1 = ((m + 1 : ℕ) : ℚ)
          push_cast
          rw [hmt]
        · intro k hk
          simp only [stepEv, stepMonitor, schedule_samples, recordOccupancy_samples]
          rcases Nat.lt_succ_iff_lt_or_eq.mp hk with hk1 | hk2
          · obtain ⟨c, hc⟩ := hcov k hk1
            exact ⟨c, List.mem_append_left _ hc⟩
          · subst hk2
            refine ⟨s.occupiedBeds, List.mem_append_right _ ?_⟩
            rw [List.mem_singleton, hmt]
  | genInit =>
    have hr1 : rest.countP isMonitorEv = 1 := by
      simp [isMonitorEv] at hcm
      omega
    simp only [stepEv, genLoopTop, expDraw]
    split
    · refine ⟨?_, ?_⟩
      · simp only [schedule_events, List.countP_append, List.countP_cons,
          List.countP_nil]
        simp [isMonitorEv, hr1]
      · intro x hx hxm
        simp only [schedule_events, List.mem_append, List.mem_singleton] at hx
        rcases hx with hx1 | hx2
        · exact hpres _ (fun y hy => hy) x hx1 hxm
        · subst hx2
          simp [isMonitorEv] at hxm
    · exact ⟨hr1, fun x hx hxm => hpres _ (fun y hy => hy) x hx hxm⟩
  | genWake =>
    have hr1 : rest.countP isMonitorEv = 1 := by
      simp [isMonitorEv] at hcm
      omega
    simp only [stepEv, stepGenWake, choiceDraw, expDraw, genLoopTop]
    split <;> split
    all_goals refine ⟨?_, ?_⟩
    all_goals
      simp only [schedule_events, List.countP_append, List.countP_cons,
        List.countP_nil, List.mem_append, List.mem_singleton]
    · simp [isMonitorEv, hr1]
    · intro x hx hxm
      rcases hx with (hx1 | hx2) | hx3
      · exact hpres _ (fun y hy => hy) x hx1 hxm
      · subst hx2; simp [isMonitorEv] at hxm
      · subst hx3; simp [isMonitorEv] at hxm
    · simp [isMonitorEv, hr1]
    · intro x hx hxm
      rcases hx with hx1 | hx2
      · exact hpres _ (fun y hy => hy) x hx1 hxm
      · subst hx2; simp [isMonitorEv] at hxm
    · simp [isMonitorEv, hr1]
    · intro x hx hxm
      rcases hx with (hx1 | hx2) | hx3
      · exact hpres _ (fun y hy => hy) x hx1 hxm
      · subst hx2; simp [isMonitorEv] at hxm
      · subst hx3; simp [isMonitorEv] at hxm
    · simp [isMonitorEv, hr1]
    · intro x hx hxm
      rcases hx with hx1 | hx2
      · exact hpres _ (fun y hy => hy) x hx1 hxm
      · subst hx2; simp [isMonitorEv] at hxm
  | patientStart pid pt los =>
    have hr1 : rest.countP isMonitorEv = 1 := by
      simp [isMonitorEv] at hcm
      omega
    rcases hnm : nmcrDraw cfg u los s.rngIdx with ⟨outcome, i⟩
    simp only [stepEv, stepPatientStart, hnm]
    split
    · refine ⟨?_, ?_⟩
      · simp only [schedule_events, recordOccupancy_events, List.countP_append,
          List.countP_cons, List.countP_nil]
        simp [isMonitorEv, hr1]
      · intro x hx hxm
        simp only [schedule_events, recordOccupancy_events, List.mem_append,
          List.mem_singleton] at hx
        rcases hx with hx1 | hx2
        · refine hpres _ (fun y hy => ?_) x hx1 hxm
          simp only [schedule_samples, recordOccupancy_samples]
          exact List.mem_append_left _ hy
        · subst hx2
          simp [isMonitorEv] at hxm
    · exact ⟨hr1, fun x hx hxm => hpres _ (fun y hy => hy) x hx hxm⟩
  | bedGranted info =>
    have hr1 : rest.countP isMonitorEv = 1 := by
      simp [isMonitorEv] at hcm
      omega
    refine ⟨?_, ?_⟩
    · simp only [stepEv, stepBedGranted, schedule_events, recordOccupancy_events,
        List.countP_append, List.countP_cons, List.countP_nil]
      simp [isMonitorEv, hr1]
    · intro x hx hxm
      simp only [stepEv, stepBedGranted, schedule_events, recordOccupancy_events,
        List.mem_append, List.mem_singleton] at hx
      rcases hx with hx1 | hx2
      · refine hpres _ (fun y hy => ?_) x hx1 hxm
        simp only [stepEv, stepBedGranted, schedule_samples, recordOccupancy_samples]
        exact List.mem_append_left _ hy
      · subst hx2
        simp [isMonitorEv] at hxm
  | discharge info tA =>
    have hr1 : rest.countP isMonitorEv = 1 := by
      simp [isMonitorEv] at hcm
      omega
    simp only [stepEv, stepDischarge]
    split
    · refine ⟨?_, ?_⟩
      · exact hr1
      · intro x hx hxm
        exact hpres _ (fun y hy => List.mem_append_left _ hy) x hx hxm
    · refine ⟨?_, ?_⟩
      · simp [List.countP_append, List.countP_cons, isMonitorEv, hr1]
      · intro x hx hxm
        simp only [schedule_events, List.mem_append, List.mem_singleton] at hx
        rcases hx with hx1 | hx2
        · refine hpres _ (fun y hy => ?_) x hx1 hxm
          exact List.mem_append_left _ hy
        · subst hx2
          simp [isMonitorEv] at hxm

/-- `InvM` holds of the final state of any run. -/
theorem invM_run (cfg : Config) (u : ℕ → ℚ) (fuel : ℕ) :
    InvM (runSimulation cfg u fuel).1 := by
  refine runLoop_inv cfg u InvM ?_ ?_ ?_ fuel initState ?_
  · intro s e rest h hp _
    exact invM_step cfg u s e rest h hp
  · intro s h _
    exact h
  · intro s e rest h _ _
    exact h
  · refine ⟨rfl, ?_⟩
    intro e he hm
    simp only [initState, List.mem_cons, List.not_mem_nil, or_false] at he
    rcases he with rfl | rfl
    · exact ⟨0, rfl, fun k hk => absurd hk (Nat.not_lt_zero k)⟩
    · simp [isMonitorEv] at hm

/-! ## Completed runs -/

/-- A completed run (`done = true`) has no pending event strictly before the
horizon. -/
theorem runLoop_done_events (cfg : Config) (u : ℕ → ℚ) :
    ∀ fuel s s', runLoop cfg u fuel s = (s', true) →
      ∀ x ∈ s'.events, ¬ x.time < (cfg.simulationTime : ℚ) := by
  intro fuel
  induction fuel with
  | zero =>
    intro s s' h
    rw [runLoop] at h
    have := congrArg Prod.snd h
    simp at this
  | succ n ih =>
    intro s s' h
    rw [runLoop] at h
    rcases hp : popMinBy eventLE s.events with _ | ⟨e, rest⟩
    · rw [hp] at h
      replace h : (({ s with now := (cfg.simulationTime : ℚ) } : SimState), true)
          = (s', true) := h
      have hs' : ({ s with now := (cfg.simulationTime : ℚ) } : SimState) = s' :=
        congrArg Prod.fst h
      subst hs'
      intro x hx
      have hx2 : x ∈ s.events := hx
      rw [popMinBy_eq_none.mp hp] at hx2
      cases hx2
    · rw [hp] at h
      replace h : (if e.time < (cfg.simulationTime : ℚ) then
          runLoop cfg u n (stepEv cfg u e { s with events := rest, now := e.time })
        else (({ s with now := (cfg.simulationTime : ℚ) } : SimState), true))
          = (s', true) := h
      by_cases ht : e.time < (cfg.simulationTime : ℚ)
      · rw [if_pos ht] at h
        exact ih _ _ h
      · rw [if_neg ht] at h
        have hs' : ({ s with now := (cfg.simulationTime : ℚ) } : SimState) = s' :=
          congrArg Prod.fst h
        subst hs'
        intro x hx
        have hxs : x ∈ s.events := hx
        have hle := eventLE_time (popMinBy_min eventLE_total eventLE_trans hp x hxs)
        intro hlt
        exact ht (lt_of_le_of_lt hle hlt)

/-- A completed run ends with the clock at the horizon (`env.run(until=T)`
leaves `env.now = T`). -/
theorem runLoop_done_now (cfg : Config) (u : ℕ → ℚ) :
    ∀ fuel s s', runLoop cfg u fuel s = (s', true) →
      s'.now = (cfg.simulationTime : ℚ) := by
  intro fuel
  induction fuel with
  | zero =>
    intro s s' h
    rw [runLoop] at h
    have := congrArg Prod.snd h
    simp at this
  | succ n ih =>
    intro s s' h
    rw [runLoop] at h
    rcases hp : popMinBy eventLE s.events with _ | ⟨e, rest⟩
    · rw [hp] at h
      replace h : (({ s with now := (cfg.simulationTime : ℚ) } : SimState), true)
          = (s', true) := h
      have hs' : ({ s with now := (cfg.simulationTime : ℚ) } : SimState) = s' :=
        congrArg Prod.fst h
      subst hs'
      rfl
    · rw [hp] at h
      replace h : (if e.time < (cfg.simulationTime : ℚ) then
          runLoop cfg u n (stepEv cfg u e { s with events := rest, now := e.time })
        else (({ s with now := (cfg.simulationTime : ℚ) } : SimState), true))
          = (s', true) := h
      by_cases ht : e.time < (cfg.simulationTime : ℚ)
      · rw [if_pos ht] at h
        exact ih _ _ h
      · rw [if_neg ht] at h
        have hs' : ({ s with now := (cfg.simulationTime : ℚ) } : SimState) = s' :=
          congrArg Prod.fst h
        subst hs'
        rfl

/-! ## Claim C8 -/

/-- C8: in a completed run the occupancy recorder has appended a sample at
every whole simulated day before the horizon, and (via `okTrace`) every
admission and every release is immediately followed by a synchronously
recorded sample at the same time. -/
theorem spec_c8_occupancy_recorder (cfg : Config) (u : ℕ → ℚ) (fuel : ℕ)
    (hdone : (runSimulation cfg u fuel).2 = true) :
    (∀ k : ℕ, k < cfg.simulationTime →
      ∃ c : ℤ, ((k : ℚ), c) ∈ (runSimulation cfg u fuel).1.samples) ∧
      okTrace (runSimulation cfg u fuel).1.trace = true := by
  have hpair : runLoop cfg u fuel initState
      = ((runSimulation cfg u fuel).1, true) := by
    rw [← hdone]
    exact Prod.mk.eta.symm
  obtain ⟨h1, h2⟩ := invM_run cfg u fuel
  refine ⟨?_, invTrace_run cfg u fuel⟩
  have hpos : 0 < (runSimulation cfg u fuel).1.events.countP isMonitorEv := by
    rw [h1]
    norm_num
  obtain ⟨e, he, hme⟩ := List.countP_pos.mp hpos
  obtain ⟨m, hmt, hcov⟩ := h2 e he hme
  have hnot := runLoop_done_events cfg u fuel initState _ hpair e he
  have hTm : (cfg.simulationTime : ℚ) ≤ (m : ℚ) := by
    rw [← hmt]
    exact not_lt.mp hnot
  have hTm2 : cfg.simulationTime ≤ m := by exact_mod_cast hTm
  intro k hk
  exact hcov k (lt_of_lt_of_le hk hTm2)

/-- Witness for C8 at a concrete completed run. -/
theorem spec_c8_occupancy_recorder_witness :
    (runSimulation cfgZero uSat 4).2 = true ∧
      ((∀ k : ℕ, k < cfgZero.simulationTime →
        ∃ c : ℤ, ((k : ℚ), c) ∈ (runSimulation cfgZero uSat 4).1.samples) ∧
      okTrace (runSimulation cfgZero uSat 4).1.trace = true) := by
  have hdone : (runSimulation cfgZero uSat 4).2 = true := by
    norm_num [runSimulation, runLoop, initState, stepEv, stepMonitor, genLoopTop,
      stepGenWake, stepPatientStart, stepBedGranted, stepDischarge,
      recordOccupancy, schedule, popMinBy, eventLE, queueLE, nmcrDraw, randDraw,
      expDraw, choiceDraw, totalRate, bedCapacity, admitPriority, cfgZero, cfgSat,
      uSat, listStream, decide_eq_true_eq]
  exact ⟨hdone, spec_c8_occupancy_recorder cfgZero uSat 4 hdone⟩

/-! ## The timing and record invariant -/

/-- `RecWF` only depends on actions already in the history, so it is stable
under appending. -/
theorem RecWF_append (more : List Action) {trace : List Action}
    {rec : PatientRecord} (h : RecWF trace rec) : RecWF (trace ++ more) rec := by
  obtain ⟨tA, h1, h2, h3, h4, h5⟩ := h
  exact ⟨tA, List.mem_append_left _ h1, h2, h3, h4, h5⟩

/-- Value of the NMCR draw when the proportion test succeeds. -/
theorem nmcrDraw_pos_eq (cfg : Config) (u : ℕ → ℚ) (los : ℚ) (i : ℕ)
    (h : u i < cfg.nmcrProportion / 100) :
    nmcrDraw cfg u los i =
      (⟨true,
        some (if u (i+1) < cfg.nmcrInternalProportion / 100 then .internal
          else .external),
        los + (if u (i+1) < cfg.nmcrInternalProportion / 100 then
          cfg.nmcrInternalDelay else cfg.nmcrExternalDelay) * u (i+2)⟩,
        i + 3) := by
  by_cases h2 : u (i+1) < cfg.nmcrInternalProportion / 100 <;>
    simp [nmcrDraw, randDraw, expDraw, h, h2]

/-- Value of the NMCR draw when the proportion test fails. -/
theorem nmcrDraw_neg_eq (cfg : Config) (u : ℕ → ℚ) (los : ℚ) (i : ℕ)
    (h : ¬ u i < cfg.nmcrProportion / 100) :
    nmcrDraw cfg u los i = (⟨false, none, los⟩, i + 1) := by
  simp [nmcrDraw, randDraw, h]

/-- The NMCR outcome is well-formed for a nonnegative stream and an in-domain
configuration. -/
theorem nmcrDraw_outcome_wf (cfg : Config) (u : ℕ → ℚ) (los : ℚ) (i : ℕ)
    (hu : ∀ j, 0 ≤ u j) (hwf : cfg.WF) :
    los ≤ (nmcrDraw cfg u los i).1.totalLengthOfStay ∧
      ((nmcrDraw cfg u los i).1.hasNmcrDelay = false →
        (nmcrDraw cfg u los i).1.nmcrReason = none ∧
        (nmcrDraw cfg u los i).1.totalLengthOfStay = los) ∧
      ((nmcrDraw cfg u los i).1.hasNmcrDelay = true →
        ∃ r, (nmcrDraw cfg u los i).1.nmcrReason = some r) := by
  obtain ⟨_, _, _, hdi, hde⟩ := hwf
  by_cases h1 : u i < cfg.nmcrProportion / 100
  · rw [nmcrDraw_pos_eq cfg u los i h1]
    refine ⟨?_, ?_, ?_⟩
    · by_cases h2 : u (i+1) < cfg.nmcrInternalProportion / 100 <;> simp only [h2]
      · simp only [if_pos]
        nlinarith [mul_nonneg hdi (hu (i+2))]
      · simp only [if_neg, if_false]
        nlinarith [mul_nonneg hde (hu (i+2))]
    · intro hcontra
      simp at hcontra
    · intro _
      exact ⟨_, rfl⟩
  · rw [nmcrDraw_neg_eq cfg u los i h1]
    refine ⟨le_refl los, fun _ => ⟨rfl, rfl⟩, ?_⟩
    intro hcontra
    simp at hcontra

/-- `EvWF` allows advancing the clock up to the event's due time. -/
theorem EvWF_now {now now2 : ℚ} {trace : List Action} {e : SimEvent}
    (hle : now2 ≤ e.time) (h : EvWF now trace e) : EvWF now2 trace e :=
  ⟨hle, h.2⟩

/-- `EvWF` is stable under appending to the history. -/
theorem EvWF_trace (more : List Action) {now : ℚ} {trace : List Action}
    {e : SimEvent} (h : EvWF now trace e) : EvWF now (trace ++ more) e := by
  obtain ⟨h1, h2⟩ := h
  refine ⟨h1, ?_⟩
  obtain ⟨t, q, ev⟩ := e
  cases ev with
  | discharge info tA =>
    exact ⟨h2.1, h2.2.1, h2.2.2.1, List.mem_append_left _ h2.2.2.2⟩
  | monitor => exact h2
  | genInit => exact h2
  | genWake => exact h2
  | patientStart pid pt los => exact h2
  | bedGranted info => exact h2

/-- Building the discharge-time record from well-formed patient data yields a
well-formed record (`admit_patient` lines 128–139). -/
theorem RecWF_build (trace : List Action) (info : PatientInfo) (t tA : ℚ)
    (hmem : Action.admitted info.patientId tA ∈ trace)
    (harr : info.arrivalTime ≤ tA)
    (hdis : t = tA + info.totalLengthOfStay)
    (hiwf : InfoWF info) :
    RecWF trace
      ⟨info.patientId, info.ptype, info.arrivalTime, info.lengthOfStay,
        (if info.hasNmcrDelay then info.totalLengthOfStay - info.lengthOfStay
          else 0),
        info.totalLengthOfStay, t,
        (if info.hasNmcrDelay then info.nmcrReason else none)⟩ := by
  obtain ⟨h1, h2, h3, h4⟩ := hiwf
  by_cases hhas : info.hasNmcrDelay = true
  · obtain ⟨r, hr⟩ := h4 hhas
    refine ⟨tA, hmem, harr, hdis, ?_, ?_⟩
    · intro hnone
      have hnone2 : (if info.hasNmcrDelay = true then info.nmcrReason else none)
          = none := hnone
      rw [if_pos hhas, hr] at hnone2
      cases hnone2
    · intro r2 _
      constructor
      · show info.totalLengthOfStay = info.lengthOfStay +
          (if info.hasNmcrDelay = true then
            info.totalLengthOfStay - info.lengthOfStay else 0)
        rw [if_pos hhas]
        ring
      · show (0 : ℚ) ≤ (if info.hasNmcrDelay = true then
          info.totalLengthOfStay - info.lengthOfStay else 0)
        rw [if_pos hhas]
        linarith
  · have hf : info.hasNmcrDelay = false := by simpa using hhas
    obtain ⟨hn, he⟩ := h3 hf
    refine ⟨tA, hmem, harr, hdis, ?_, ?_⟩
    · intro _
      constructor
      · show (if info.hasNmcrDelay = true then
          info.totalLengthOfStay - info.lengthOfStay else 0) = 0
        rw [if_neg hhas]
      · exact he
    · intro r2 hr2
      have hr3 : (if info.hasNmcrDelay = true then info.nmcrReason else none)
          = some r2 := hr2
      rw [if_neg hhas] at hr3
      cases hr3

/-- `InvA` is preserved by every fuelled step of the event loop. -/
theorem invA_step (cfg : Config) (u : ℕ → ℚ) (s : SimState) (e : SimEvent)
    (rest : List SimEvent) (hu : ∀ j, 0 ≤ u j) (hwf : cfg.WF)
    (h : InvA cfg s) (hp : popMinBy eventLE s.events = some (e, rest))
    (ht : e.time < (cfg.simulationTime : ℚ)) :
    InvA cfg (stepEv cfg u e { s with events := rest, now := e.time }) := by
  obtain ⟨hT, hev, hq, hrec⟩ := h
  have hperm := popMinBy_perm hp
  have hmemE : e ∈ s.events := hperm.mem_iff.mpr (List.mem_cons_self e rest)
  have hnowt : s.now ≤ e.time := (hev e hmemE).1
  have hrmem : ∀ x ∈ rest, x ∈ s.events := fun x hx =>
    hperm.mem_iff.mpr (List.mem_cons_of_mem e hx)
  have hrest0 : ∀ x ∈ rest, EvWF e.time s.trace x := fun x hx =>
    EvWF_now (eventLE_time (popMinBy_min eventLE_total eventLE_trans hp x
      (hrmem x hx))) (hev x (hrmem x hx))
  have hrest1 : ∀ (m1 : List Action), ∀ x ∈ rest, EvWF e.time (s.trace ++ m1) x :=
    fun m1 x hx => EvWF_trace m1 (hrest0 x hx)
  have hrest2 : ∀ (m1 m2 : List Action), ∀ x ∈ rest,
      EvWF e.time ((s.trace ++ m1) ++ m2) x :=
    fun m1 m2 x hx => EvWF_trace m2 (EvWF_trace m1 (hrest0 x hx))
  have hqt : ∀ qq ∈ s.bedQueue, InfoWF qq.2.2 ∧ qq.2.2.arrivalTime ≤ e.time :=
    fun qq hqq => ⟨(hq qq hqq).1, le_trans (hq qq hqq).2 hnowt⟩
  have hrec1 : ∀ (m1 : List Action), ∀ rec ∈ s.patients,
      RecWF (s.trace ++ m1) rec :=
    fun m1 rec hr => RecWF_append m1 (hrec rec hr)
  have hrec2 : ∀ (m1 m2 : List Action), ∀ rec ∈ s.patients,
      RecWF ((s.trace ++ m1) ++ m2) rec :=
    fun m1 m2 rec hr => RecWF_append m2 (RecWF_append m1 (hrec rec hr))
  have h0 : (0 : ℚ) ≤ totalRate cfg := by
    have hm := hwf.1 .medical
    have hs := hwf.1 .surgical
    unfold totalRate
    linarith
  have hdt : ∀ j, 0 ≤ 1 / totalRate cfg * u j := fun j =>
    mul_nonneg (one_div_nonneg.mpr h0) (hu j)
  obtain ⟨t, q, ev⟩ := e
  cases ev with
  | monitor =>
    refine ⟨le_of_lt ht, ?_, hqt, hrec1 _⟩
    intro x hx
    simp only [stepEv, stepMonitor, schedule_events, recordOccupancy_events,
      List.mem_append, List.mem_singleton] at hx
    rcases hx with hx1 | hx2
    · exact hrest1 _ x hx1
    · subst hx2
      refine ⟨?_, trivial⟩
      show t ≤ t + 1
      linarith
  | genInit =>
    simp only [stepEv, genLoopTop, expDraw]
    split
    · refine ⟨le_of_lt ht, ?_, hqt, hrec⟩
      intro x hx
      simp only [schedule_events, List.mem_append, List.mem_singleton] at hx
      rcases hx with hx1 | hx2
      · exact hrest0 x hx1
      · subst hx2
        refine ⟨?_, trivial⟩
        show t ≤ t + 1 / totalRate cfg * u s.rngIdx
        linarith [hdt s.rngIdx]
    · exact ⟨le_of_lt ht, fun x hx => hrest0 x hx, hqt, hrec⟩
  | genWake =>
    have hlos : ∀ pt j, 0 ≤ cfg.meanLos pt * u j * cfg.complexity pt := fun pt j =>
      mul_nonneg (mul_nonneg (hwf.2.1 pt) (hu j)) (hwf.2.2.1 pt)
    simp only [stepEv, stepGenWake, choiceDraw, expDraw, genLoopTop]
    split <;> split
    · refine ⟨le_of_lt ht, ?_, hqt, hrec⟩
      intro x hx
      simp only [schedule_events, List.mem_append, List.mem_singleton] at hx
      rcases hx with (hx1 | hx2) | hx3
      · exact hrest0 x hx1
      · subst hx2
        exact ⟨le_refl t, hlos _ _⟩
      · subst hx3
        refine ⟨?_, trivial⟩
        show t ≤ t + 1 / totalRate cfg * u (s.rngIdx + 1 + 1)
        linarith [hdt (s.rngIdx + 1 + 1)]
    · refine ⟨le_of_lt ht, ?_, hqt, hrec⟩
      intro x hx
      simp only [schedule_events, List.mem_append, List.mem_singleton] at hx
      rcases hx with hx1 | hx2
      · exact hrest0 x hx1
      · subst hx2
        exact ⟨le_refl t, hlos _ _⟩
    · refine ⟨le_of_lt ht, ?_, hqt, hrec⟩
      intro x hx
      simp only [schedule_events, List.mem_append, List.mem_singleton] at hx
      rcases hx with (hx1 | hx2) | hx3
      · exact hrest0 x hx1
      · subst hx2
        exact ⟨le_refl t, hlos _ _⟩
      · subst hx3
        refine ⟨?_, trivial⟩
        show t ≤ t + 1 / totalRate cfg * u (s.rngIdx + 1 + 1)
        linarith [hdt (s.rngIdx + 1 + 1)]
    · refine ⟨le_of_lt ht, ?_, hqt, hrec⟩
      intro x hx
      simp only [schedule_events, List.mem_append, List.mem_singleton] at hx
      rcases hx with hx1 | hx2
      · exact hrest0 x hx1
      · subst hx2
        exact ⟨le_refl t, hlos _ _⟩
  | patientStart pid pt los =>
    have hlos : (0 : ℚ) ≤ los := (hev _ hmemE).2
    rcases hnm : nmcrDraw cfg u los s.rngIdx with ⟨outcome, i2⟩
    have hwfo := nmcrDraw_outcome_wf cfg u los s.rngIdx hu hwf
    rw [hnm] at hwfo
    obtain ⟨ho1, ho2, ho3⟩ := hwfo
    have hinfo : InfoWF ⟨pid, pt, t, los, outcome.hasNmcrDelay,
        outcome.nmcrReason, outcome.totalLengthOfStay⟩ :=
      ⟨hlos, ho1, fun hh => ho2 hh, fun hh => ho3 hh⟩
    simp only [stepEv, stepPatientStart, hnm]
    split
    · refine ⟨le_of_lt ht, ?_, hqt, hrec2 _ _⟩
      intro x hx
      simp only [schedule_events, recordOccupancy_events, List.mem_append,
        List.mem_singleton] at hx
      rcases hx with hx1 | hx2
      · exact hrest2 _ _ x hx1
      · subst hx2
        refine ⟨?_, hinfo, le_refl t, rfl, ?_⟩
        · show t ≤ t + outcome.totalLengthOfStay
          linarith
        · exact List.mem_append_left _ (List.mem_append_right _ (by simp))
    · refine ⟨le_of_lt ht, fun x hx => hrest1 _ x hx, ?_, hrec1 _⟩
      intro qq hqq
      rcases List.mem_append.mp hqq with hq1 | hq2
      · exact hqt qq hq1
      · rw [List.mem_singleton] at hq2
        subst hq2
        exact ⟨hinfo, le_refl t⟩
  | bedGranted info =>
    have hbgi : InfoWF info ∧ info.arrivalTime ≤ t := (hev _ hmemE).2
    refine ⟨le_of_lt ht, ?_, hqt, hrec2 _ _⟩
    intro x hx
    simp only [stepEv, stepBedGranted, schedule_events, recordOccupancy_events,
      List.mem_append, List.mem_singleton] at hx
    rcases hx with hx1 | hx2
    · exact hrest2 _ _ x hx1
    · subst hx2
      refine ⟨?_, hbgi.1, hbgi.2, rfl, ?_⟩
      · show t ≤ t + info.totalLengthOfStay
        have := hbgi.1.1
        have := hbgi.1.2.1
        linarith
      · exact List.mem_append_left _ (List.mem_append_right _ (by simp))
  | discharge info tA =>
    have hdci : InfoWF info ∧ info.arrivalTime ≤ tA ∧
        t = tA + info.totalLengthOfStay ∧
        Action.admitted info.patientId tA ∈ s.trace := (hev _ hmemE).2
    have hnewrec : RecWF ((s.trace ++ [.released info.patientId t])
        ++ [.sampled t (s.occupiedBeds - 1)])
        ⟨info.patientId, info.ptype, info.arrivalTime, info.lengthOfStay,
          (if info.hasNmcrDelay then info.totalLengthOfStay - info.lengthOfStay
            else 0),
          info.totalLengthOfStay, t,
          (if info.hasNmcrDelay then info.nmcrReason else none)⟩ :=
      RecWF_build _ info t tA
        (List.mem_append_left _ (List.mem_append_left _ hdci.2.2.2))
        hdci.2.1 hdci.2.2.1 hdci.1
    simp only [stepEv, stepDischarge]
    split
    · refine ⟨le_of_lt ht, fun x hx => hrest2 _ _ x hx, hqt, ?_⟩
      intro rec hr
      rcases List.mem_append.mp hr with hr1 | hr2
      · exact hrec2 _ _ rec hr1
      · rw [List.mem_singleton] at hr2
        subst hr2
        exact hnewrec
    · rename_i wp wq winfo qrest heq
      have hqperm := popMinBy_perm heq
      have hwmem : (wp, wq, winfo) ∈ s.bedQueue :=
        hqperm.mem_iff.mpr (List.mem_cons_self _ qrest)
      have hwq := hqt _ hwmem
      refine ⟨le_of_lt ht, ?_, ?_, ?_⟩
      · intro x hx
        simp only [schedule_events, List.mem_append, List.mem_singleton] at hx
        rcases hx with hx1 | hx2
        · exact hrest2 _ _ x hx1
        · subst hx2
          exact ⟨le_refl t, hwq.1, hwq.2⟩
      · intro qq hqq
        have : qq ∈ s.bedQueue :=
          hqperm.mem_iff.mpr (List.mem_cons_of_mem _ hqq)
        exact hqt qq this
      · intro rec hr
        rcases List.mem_append.mp hr with hr1 | hr2
        · exact hrec2 _ _ rec hr1
        · rw [List.mem_singleton] at hr2
          subst hr2
          exact hnewrec

/-- `InvA` holds of the final state of any run with a nonnegative raw stream
and an in-domain configuration. -/
theorem invA_run (cfg : Config) (u : ℕ → ℚ) (fuel : ℕ)
    (hu : ∀ j, 0 ≤ u j) (hwf : cfg.WF) :
    InvA cfg (runSimulation cfg u fuel).1 := by
  refine runLoop_inv cfg u (InvA cfg) ?_ ?_ ?_ fuel initState ?_
  · intro s e rest h hp ht
    exact invA_step cfg u s e rest hu hwf h hp ht
  · intro s h hnil
    obtain ⟨hT, hev, hq, hrec⟩ := h
    refine ⟨le_refl _, ?_, ?_, hrec⟩
    · intro x hx
      have hx2 : x ∈ s.events := hx
      rw [hnil] at hx2
      cases hx2
    · intro qq hqq
      exact ⟨(hq qq hqq).1, le_trans (hq qq hqq).2 hT⟩
  · intro s e rest h hp hnt
    obtain ⟨hT, hev, hq, hrec⟩ := h
    refine ⟨le_refl _, ?_, ?_, hrec⟩
    · intro x hx
      have hx2 : x ∈ s.events := hx
      have h1 := eventLE_time (popMinBy_min eventLE_total eventLE_trans hp x hx2)
      exact ⟨le_trans (not_lt.mp hnt) h1, (hev x hx2).2⟩
    · intro qq hqq
      exact ⟨(hq qq hqq).1, le_trans (hq qq hqq).2 hT⟩
  · refine ⟨Nat.cast_nonneg _, ?_, ?_, ?_⟩
    · intro x hx
      simp only [initState, List.mem_cons, List.not_mem_nil, or_false] at hx
      rcases hx with rfl | rfl
      · exact ⟨le_refl 0, trivial⟩
      · exact ⟨le_refl 0, trivial⟩
    · intro qq hqq
      cases hqq
    · intro rec hr
      cases hr

/-! ## Claim C5 -/

/-- C5: for every record in the patient log,
`discharge_time = arrival_time + wait_time + total_length_of_stay` where
`wait_time ≥ 0` is the time between the bed request (at arrival) and the
recorded admission; hence `discharge_time - arrival_time ≥
total_length_of_stay`, with equality exactly when the wait was zero, i.e. the
patient was admitted at the instant of its request. -/
theorem spec_c5_discharge_time (cfg : Config) (u : ℕ → ℚ) (fuel : ℕ)
    (hu : ∀ j, 0 ≤ u j) (hwf : cfg.WF) :
    ∀ rec ∈ (runSimulation cfg u fuel).1.patients,
      ∃ waitTime : ℚ, 0 ≤ waitTime ∧
        rec.dischargeTime = rec.arrivalTime + waitTime + rec.totalLengthOfStay ∧
        Action.admitted rec.patientId (rec.arrivalTime + waitTime)
          ∈ (runSimulation cfg u fuel).1.trace ∧
        rec.totalLengthOfStay ≤ rec.dischargeTime - rec.arrivalTime ∧
        (rec.dischargeTime - rec.arrivalTime = rec.totalLengthOfStay ↔
          waitTime = 0) := by
  intro rec hr
  obtain ⟨_, _, _, hrec⟩ := invA_run cfg u fuel hu hwf
  obtain ⟨tA, hmem, harr, hdis, _, _⟩ := hrec rec hr
  refine ⟨tA - rec.arrivalTime, by linarith, by linarith, ?_, by linarith, ?_⟩
  · have heq : rec.arrivalTime + (tA - rec.arrivalTime) = tA := by ring
    rw [heq]
    exact hmem
  · constructor
    · intro h2
      linarith
    · intro h2
      linarith

/-- Witness for C5: the single patient of the `cfgOne` run (arrives at 1/4,
admitted at once, stays 1/2, discharged at 3/4). -/
theorem spec_c5_discharge_time_witness :
    (⟨0, .medical, 1/4, 1/2, 0, 1/2, 3/4, none⟩ : PatientRecord)
        ∈ (runSimulation cfgOne uOne 8).1.patients ∧
      ∃ waitTime : ℚ, 0 ≤ waitTime ∧
        (3/4 : ℚ) = 1/4 + waitTime + 1/2 ∧
        Action.admitted 0 (1/4 + waitTime)
          ∈ (runSimulation cfgOne uOne 8).1.trace ∧
        (1/2 : ℚ) ≤ 3/4 - 1/4 ∧
        ((3/4 : ℚ) - 1/4 = 1/2 ↔ waitTime = 0) := by
  have hu : ∀ j, 0 ≤ uOne j := by
    refine listStream_nonneg ?_
    intro x hx
    fin_cases hx <;> norm_num
  have hwf : Config.WF cfgOne := by
    refine ⟨fun p => ?_, fun p => ?_, fun p => ?_, ?_, ?_⟩ <;>
      first
        | (cases p <;> norm_num [cfgOne])
        | norm_num [cfgOne]
  have hmem : (⟨0, .medical, 1/4, 1/2, 0, 1/2, 3/4, none⟩ : PatientRecord)
      ∈ (runSimulation cfgOne uOne 8).1.patients := by
    norm_num [runSimulation, runLoop, initState, stepEv, stepMonitor, genLoopTop,
      stepGenWake, stepPatientStart, stepBedGranted, stepDischarge,
      recordOccupancy, schedule, popMinBy, eventLE, queueLE, nmcrDraw, randDraw,
      expDraw, choiceDraw, totalRate, bedCapacity, admitPriority, cfgOne, uOne,
      listStream, decide_eq_true_eq]
  exact ⟨hmem, spec_c5_discharge_time cfgOne uOne 8 hu hwf _ hmem⟩

/-! ## Claim C6 -/

/-- C6: the NMCR outcome is drawn once at process start, before the bed
request: the first raw draw decides (against `nmcr_proportion/100`) whether a
delay occurs; if so a second draw decides Internal vs External (against
`internal_proportion/100`), the magnitude is an exponential draw with mean
`internal_delay` resp. `external_delay` added to the base stay, and the RNG
cursor advances by 3; otherwise the stay is unchanged and the cursor advances
by 1.  Moreover every logged record's NMCR fields are consistent: reason
`None` means delay 0 and `total_length_of_stay = base`, and a recorded reason
means `total_length_of_stay = base + delay` with `delay ≥ 0`. -/
theorem spec_c6_nmcr_outcome (cfg : Config) (u : ℕ → ℚ) :
    (∀ los : ℚ, ∀ i : ℕ,
      (u i < cfg.nmcrProportion / 100 →
        nmcrDraw cfg u los i =
          (⟨true,
            some (if u (i+1) < cfg.nmcrInternalProportion / 100 then .internal
              else .external),
            los + (if u (i+1) < cfg.nmcrInternalProportion / 100 then
              cfg.nmcrInternalDelay else cfg.nmcrExternalDelay) * u (i+2)⟩,
            i + 3)) ∧
      (¬ u i < cfg.nmcrProportion / 100 →
        nmcrDraw cfg u los i = (⟨false, none, los⟩, i + 1))) ∧
    (∀ fuel : ℕ, (∀ j, 0 ≤ u j) → cfg.WF →
      ∀ rec ∈ (runSimulation cfg u fuel).1.patients,
        (rec.nmcrReason = none →
          rec.nmcrDelay = 0 ∧ rec.totalLengthOfStay = rec.lengthOfStay) ∧
        (∀ r, rec.nmcrReason = some r →
          rec.totalLengthOfStay = rec.lengthOfStay + rec.nmcrDelay ∧
            0 ≤ rec.nmcrDelay)) := by
  refine ⟨fun los i => ⟨nmcrDraw_pos_eq cfg u los i, nmcrDraw_neg_eq cfg u los i⟩,
    ?_⟩
  intro fuel hu hwf rec hr
  obtain ⟨_, _, _, hrec⟩ := invA_run cfg u fuel hu hwf
  obtain ⟨tA, _, _, _, hnone, hsome⟩ := hrec rec hr
  exact ⟨hnone, hsome⟩

/-- Witness for C6: the draw characterization at a concrete stream and the
record consistency for the `cfgOne` patient. -/
theorem spec_c6_nmcr_outcome_witness :
    (uOne 4 < cfgOne.nmcrProportion / 100 →
      nmcrDraw cfgOne uOne (1/2) 4 =
        (⟨true,
          some (if uOne 5 < cfgOne.nmcrInternalProportion / 100 then .internal
            else .external),
          1/2 + (if uOne 5 < cfgOne.nmcrInternalProportion / 100 then
            cfgOne.nmcrInternalDelay else cfgOne.nmcrExternalDelay) * uOne 6⟩,
          7)) ∧
    (¬ uOne 4 < cfgOne.nmcrProportion / 100 →
      nmcrDraw cfgOne uOne (1/2) 4 = (⟨false, none, 1/2⟩, 5)) ∧
    (((⟨0, .medical, 1/4, 1/2, 0, 1/2, 3/4, none⟩ : PatientRecord).nmcrReason
        = none →
      (⟨0, .medical, 1/4, 1/2, 0, 1/2, 3/4, none⟩ : PatientRecord).nmcrDelay = 0 ∧
      (⟨0, .medical, 1/4, 1/2, 0, 1/2, 3/4, none⟩ : PatientRecord).totalLengthOfStay
        = (⟨0, .medical, 1/4, 1/2, 0, 1/2, 3/4, none⟩ : PatientRecord).lengthOfStay)) := by
  have hu : ∀ j, 0 ≤ uOne j := by
    refine listStream_nonneg ?_
    intro x hx
    fin_cases hx <;> norm_num
  have hwf : Config.WF cfgOne := by
    refine ⟨fun p => ?_, fun p => ?_, fun p => ?_, ?_, ?_⟩ <;>
      first
        | (cases p <;> norm_num [cfgOne])
        | norm_num [cfgOne]
  have hmem : (⟨0, .medical, 1/4, 1/2, 0, 1/2, 3/4, none⟩ : PatientRecord)
      ∈ (runSimulation cfgOne uOne 8).1.patients := by
    norm_num [runSimulation, runLoop, initState, stepEv, stepMonitor, genLoopTop,
      stepGenWake, stepPatientStart, stepBedGranted, stepDischarge,
      recordOccupancy, schedule, popMinBy, eventLE, queueLE, nmcrDraw, randDraw,
      expDraw, choiceDraw, totalRate, bedCapacity, admitPriority, cfgOne, uOne,
      listStream, decide_eq_true_eq]
  refine ⟨(spec_c6_nmcr_outcome cfgOne uOne).1 (1/2) 4 |>.1, ?_, ?_⟩
  · exact (spec_c6_nmcr_outcome cfgOne uOne).1 (1/2) 4 |>.2
  · exact ((spec_c6_nmcr_outcome cfgOne uOne).2 8 hu hwf _ hmem).1

/-! ## Claim C9 -/

/-- C9: a completed run terminates with the clock at the horizon (no
deadlock: the loop always either processes the minimal event or stops), and
every record in the patient log belongs to a patient that was actually
admitted — so a patient whose request is never granted before the horizon
appears nowhere in the log. -/
theorem spec_c9_never_admitted_absent (cfg : Config) (u : ℕ → ℚ) (fuel : ℕ)
    (hu : ∀ j, 0 ≤ u j) (hwf : cfg.WF) :
    ((runSimulation cfg u fuel).2 = true →
      (runSimulation cfg u fuel).1.now = (cfg.simulationTime : ℚ)) ∧
    ∀ rec ∈ (runSimulation cfg u fuel).1.patients,
      ∃ t : ℚ, Action.admitted rec.patientId t
        ∈ (runSimulation cfg u fuel).1.trace := by
  constructor
  · intro hdone
    have hpair : runLoop cfg u fuel initState
        = ((runSimulation cfg u fuel).1, true) := by
      rw [← hdone]
      exact Prod.mk.eta.symm
    exact runLoop_done_now cfg u fuel initState _ hpair
  · intro rec hr
    obtain ⟨_, _, _, hrec⟩ := invA_run cfg u fuel hu hwf
    obtain ⟨tA, hmem, _, _, _, _⟩ := hrec rec hr
    exact ⟨tA, hmem⟩

set_option maxHeartbeats 2000000 in
/-- Witness for C9: the `cfgQueue` saturation run completes at the horizon
with patient 2 still queued (its tier-2 request was never granted) and an
empty patient log. -/
theorem spec_c9_never_admitted_absent_witness :
    (runSimulation cfgQueue uSat 12).2 = true ∧
      (runSimulation cfgQueue uSat 12).1.patients = [] ∧
      (runSimulation cfgQueue uSat 12).1.bedQueue.length = 1 ∧
      (runSimulation cfgQueue uSat 12).1.now = (cfgQueue.simulationTime : ℚ) ∧
      (∀ rec ∈ (runSimulation cfgQueue uSat 12).1.patients,
        ∃ t : ℚ, Action.admitted rec.patientId t
          ∈ (runSimulation cfgQueue uSat 12).1.trace) := by
  have hu : ∀ j, 0 ≤ uSat j := by
    refine listStream_nonneg ?_
    intro x hx
    fin_cases hx <;> norm_num
  have hwf : Config.WF cfgQueue := by
    refine ⟨fun p => ?_, fun p => ?_, fun p => ?_, ?_, ?_⟩ <;>
      first
        | (cases p <;> norm_num [cfgQueue, cfgSat])
        | norm_num [cfgQueue, cfgSat]
  have hdone : (runSimulation cfgQueue uSat 12).2 = true ∧
      (runSimulation cfgQueue uSat 12).1.patients = [] ∧
      (runSimulation cfgQueue uSat 12).1.bedQueue.length = 1 := by
    refine ⟨?_, ?_, ?_⟩ <;>
      norm_num [runSimulation, runLoop, initState, stepEv, stepMonitor,
        genLoopTop, stepGenWake, stepPatientStart, stepBedGranted, stepDischarge,
        recordOccupancy, schedule, popMinBy, eventLE, queueLE, nmcrDraw, randDraw,
        expDraw, choiceDraw, totalRate, bedCapacity, admitPriority, cfgQueue,
        cfgSat, uSat, listStream, decide_eq_true_eq]
  refine ⟨hdone.1, hdone.2.1, hdone.2.2, ?_, ?_⟩
  · exact (spec_c9_never_admitted_absent cfgQueue uSat 12 hu hwf).1 hdone.1
  · exact (spec_c9_never_admitted_absent cfgQueue uSat 12 hu hwf).2

end BedModel

